import Mathlib

/-!
Verification of the 1000-AI-Roles repository utilities.

This file gives a shallow embedding of the two Python source files of the
repository:

* `migrate-roles-to-template.py` (class `RoleMigrator`): the per-role section
  insertion logic (`add_missing_elements` and its helpers
  `add_interaction_pattern`, `add_standard_operating_procedures`,
  `add_example_usage`), the split/reassemble loop of `migrate_ai_roles_file`,
  and the `update_claude_md` transform.
* `server.py` (class `FileServerHandler`): the `/api/file` GET handler, the
  `/api/save` POST handler, `get_all_md_files`, `get_file_type` and
  `get_file_preview`.

Strings are modelled as `List Char`.  Python `str.replace` (which replaces
every non-overlapping occurrence, left to right) is modelled by `replaceAll`,
and `re.sub(r"8\.\s+.*", repl, s)` by `reSub8` (leftmost matches; the regex
matches a literal "8.", then a maximal nonempty whitespace run, where the
whitespace class may cross line breaks, then the maximal run of
non-newline characters).  Both are written with an explicit fuel argument
(the length of the string is always enough fuel) so that they are structural
recursions the kernel can evaluate.  Character classes of Python regexes are
modelled over ASCII.  The filesystem of the server is modelled as a partial
map from path strings to file contents.
-/

set_option maxRecDepth 1000000

abbrev Str := List Char

def s2l (s : String) : Str := s.data

/-- Bool test: is `p` a (contiguous) prefix of `s`. -/
def isPre : Str → Str → Bool
  | [], _ => true
  | _ :: _, [] => false
  | a :: as, b :: bs => a == b && isPre as bs

/-- Bool test: does `s` contain `pat` as a contiguous substring
(Python `pat in s`). -/
def hasSub (s pat : Str) : Bool :=
  match s with
  | [] => isPre pat []
  | _ :: rest => isPre pat s || hasSub rest pat

/-- Python `\s` / `str.strip` whitespace, over ASCII. -/
def pyWs (c : Char) : Bool :=
  c = ' ' || c = '\t' || c = '\n' || c = '\x0d' || c = '\x0b' || c = '\x0c'

/-- Python `str.strip()`: drop whitespace from both ends. -/
def pyStrip (l : Str) : Str :=
  ((l.dropWhile pyWs).reverse.dropWhile pyWs).reverse

/-- One pass of Python `str.replace(pat, repl)` with explicit fuel:
scan left to right, and at each position where `pat` starts, emit `repl`
and skip past the occurrence (occurrences are non-overlapping). -/
def replaceAllF (pat repl : Str) : Nat → Str → Str
  | 0, s => s
  | fuel + 1, s =>
    match s with
    | [] => []
    | c :: rest =>
      if isPre pat (c :: rest) then
        repl ++ replaceAllF pat repl fuel ((c :: rest).drop pat.length)
      else
        c :: replaceAllF pat repl fuel rest

/-- Python `s.replace(pat, repl)` for a nonempty `pat`. -/
def replaceAll (pat repl s : Str) : Str := replaceAllF pat repl s.length s

/-- Matcher for the regex `8\.\s+.*` at the head of the string: on success,
returns the remainder of the string after the (greedy) match.  `\s+` takes
the maximal whitespace run (which may include newlines) and `.*` then takes
the maximal run of non-newline characters. -/
def sub8match : Str → Option Str
  | '8' :: '.' :: rest =>
    if (rest.takeWhile pyWs).isEmpty then none
    else some ((rest.dropWhile pyWs).dropWhile (fun c => !(c = '\n')))
  | _ => none

/-- The substitution `re.sub(r"8\.\s+.*", repl, s)` with explicit fuel: replace every
leftmost non-overlapping match. -/
def reSub8F (repl : Str) : Nat → Str → Str
  | 0, s => s
  | fuel + 1, s =>
    match s with
    | [] => []
    | c :: rest =>
      match sub8match (c :: rest) with
      | some rem => repl ++ reSub8F repl fuel rem
      | none => c :: reSub8F repl fuel rest

/-- The substitution `re.sub(r"8\.\s+.*", repl, s)`. -/
def reSub8 (repl s : Str) : Str := reSub8F repl s.length s

/-- One entry of `RoleMigrator.roles`. -/
structure RoleInfo where
  name : Str
  definition : Str
  output : Str
  next_role : Str
deriving DecidableEq

def role_project_initiator : RoleInfo := ⟨s2l "@project-initiator", s2l "Project Discovery Specialist who transforms vague ideas into actionable project briefs", s2l "project-brief.md", s2l "@requirements-collector"⟩
def role_requirements_collector : RoleInfo := ⟨s2l "@requirements-collector", s2l "Requirements Collection Specialist who gathers comprehensive, clear, and actionable requirements", s2l "user-stories.md", s2l "@mvp-specialist"⟩
def role_mvp_specialist : RoleInfo := ⟨s2l "@mvp-specialist", s2l "MVP Strategy & Refinement Specialist who identifies minimum viable products", s2l "mvp-requirements.md", s2l "@architect"⟩
def role_architect : RoleInfo := ⟨s2l "@architect", s2l "Solution Architect (Archie) who designs technology solutions using TOGAF principles", s2l "architecture.md", s2l "@planner"⟩
def role_planner : RoleInfo := ⟨s2l "@planner", s2l "Task Planning Specialist who creates hierarchical task structures", s2l "task-list.json", s2l "@pseudo-coder"⟩
def role_pseudo_coder : RoleInfo := ⟨s2l "@pseudo-coder", s2l "Logic Designer who translates implementation tasks into clear pseudo code", s2l "pseudo-code.md", s2l "@tdd-evidence-specialist"⟩
def role_tdd_evidence_specialist : RoleInfo := ⟨s2l "@tdd-evidence-specialist", s2l "TDD Evidence Specialist who proves systems work through comprehensive tests", s2l "evidence-tests.md", s2l "@coder"⟩
def role_coder : RoleInfo := ⟨s2l "@coder", s2l "Code Implementation Specialist who writes clean, efficient, modular code", s2l "working code files", s2l "@documentation-writer"⟩
def role_documentation_writer : RoleInfo := ⟨s2l "@documentation-writer", s2l "Evidence-Based Documentation Specialist who creates measurable, effective documentation", s2l "user guides, API docs", s2l "@git-mate"⟩
def role_git_mate : RoleInfo := ⟨s2l "@git-mate", s2l "Git Workflow and Versioning Specialist (GitMate) who manages version control", s2l "commits, tags, changelog", s2l "deployment"⟩

/-- The dict `self.roles` of `RoleMigrator.__init__`, as a lookup by role key. -/
def roles (r : Str) : Option RoleInfo :=
  if r = s2l "project-initiator" then some role_project_initiator
  else if r = s2l "requirements-collector" then some role_requirements_collector
  else if r = s2l "mvp-specialist" then some role_mvp_specialist
  else if r = s2l "architect" then some role_architect
  else if r = s2l "planner" then some role_planner
  else if r = s2l "pseudo-coder" then some role_pseudo_coder
  else if r = s2l "tdd-evidence-specialist" then some role_tdd_evidence_specialist
  else if r = s2l "coder" then some role_coder
  else if r = s2l "documentation-writer" then some role_documentation_writer
  else if r = s2l "git-mate" then some role_git_mate
  else none

def qsProjectInitiator : Str := s2l "\n## Interactive Session Structure\n- Phase 1: Overview & Context Setting\n- Phase 2: Hierarchical Question Gathering (1, 1.1, 1.1.a format)\n- Phase 3: Summary & Confirmation\n- Phase 4: Output Generation & Validation\n\n## Question Hierarchy Pattern\n\n### Discovery Phase Overview\nI\x27ll guide you through 4 main areas with approximately 15 total questions:\n\n1. Problem Definition (4-5 questions)\n   1.1. Problem metrics and measurement\n   1.2. Impact analysis\n2. Validation & Evidence (3-4 questions)\n   2.1. Existing solutions evaluation\n   2.2. Evidence of problem severity\n3. Constraints & Resources (3-4 questions)\n   3.1. Technical constraints\n   3.2. Resource limitations\n4. Success Vision (2-3 questions)\n   4.1. Success metrics\n   4.2. Timeline expectations\n\nTotal estimated questions: 15\nEstimated time: 10-15 minutes\n\nNavigation: Type \x27skip\x27 to move forward, \x27back\x27 to revisit, \x27overview\x27 to see all questions"

def qsRequirementsCollector : Str := s2l "\n## Interactive Session Structure\n- Phase 1: Overview & Context Setting\n- Phase 2: Hierarchical Question Gathering (1, 1.1, 1.1.a format)\n- Phase 3: Summary & Confirmation\n- Phase 4: Output Generation & Validation\n\n## Question Hierarchy Pattern\n\n### Requirements Gathering Overview\nI\x27ll guide you through 4 main areas with approximately 20 questions:\n\n1. Functional Requirements (6-7 questions)\n   1.1. Core features\n       1.1.a. Feature priorities\n       1.1.b. Feature dependencies\n   1.2. User workflows\n2. Non-Functional Requirements (5-6 questions)\n   2.1. Performance requirements\n   2.2. Security requirements\n3. User Experience (4-5 questions)\n   3.1. User personas\n   3.2. Accessibility needs\n4. Integration & Data (3-4 questions)\n   4.1. External systems\n   4.2. Data requirements\n\nTotal estimated questions: 20\nEstimated time: 15-20 minutes"

def qsMvpSpecialist : Str := s2l "\n## Interactive Session Structure\n- Phase 1: Overview & Context Setting\n- Phase 2: Hierarchical Question Gathering (1, 1.1, 1.1.a format)\n- Phase 3: Summary & Confirmation\n- Phase 4: Output Generation & Validation\n\n## Question Hierarchy Pattern\n\n### MVP Definition Overview\nI\x27ll guide you through 3 main areas with approximately 12 questions:\n\n1. Core Value Proposition (4-5 questions)\n   1.1. Primary user need\n       1.1.a. Evidence of need\n       1.1.b. Alternative solutions\n   1.2. Unique value delivery\n2. Feature Prioritization (4-5 questions)\n   2.1. Must-have features\n   2.2. Should-have features\n   2.3. Could-have features\n3. Success Metrics (3-4 questions)\n   3.1. Validation criteria\n   3.2. Learning objectives\n\nTotal estimated questions: 12\nEstimated time: 10-12 minutes"

def qsDefault : Str := s2l "\n## Interactive Session Structure\n- Phase 1: Overview & Context Setting\n- Phase 2: Hierarchical Question Gathering (1, 1.1, 1.1.a format)\n- Phase 3: Summary & Confirmation\n- Phase 4: Output Generation & Validation\n\n## Question Hierarchy Pattern\nQuestions will follow hierarchical numbering:\n1. Main topic\n   1.1. Clarifying question\n       1.1.a. Specific detail\n   1.2. Related aspect\n2. Next main topic"

def confirmationText : Str := s2l "\n12. **SUMMARY & CONFIRMATION**:\n    - After all questions, provide complete summary\n    - Allow user to revise any answer\n    - Confirm understanding before proceeding"

def instrumentationText : Str := s2l "8. **INSTRUMENTATION**: Logging, metrics, monitoring requirements for production validation"

def sopPre : Str := s2l "\n## Standard Operating Procedures\n\n### Initial Session\n1. Display role header with current and next suggested role\n2. Present question overview with time estimate\n3. Confirm user readiness to proceed\n4. Begin hierarchical questioning\n\n### Working Sessions\n1. Follow UNDERSTAND → DESIGN → STRUCTURE → VALIDATE approach\n2. Update task status in real-time\n3. Maintain version history in output files\n4. Regular progress checkpoints with user\n\n### Validation Session\n1. Present completed work summary\n2. Request user validation\n3. Address any concerns or gaps\n4. Confirm readiness for handoff\n\n### Handoff Session\n1. Summarize deliverables created\n2. Highlight key decisions and rationale\n3. Prepare handoff artifacts for next role\n4. Suggest next role: "

def exU0 : Str := s2l "\n## Example Usage\n\n\x60\x60\x60\nClaude: \"Based on your request, I recommend using "
def exU1 : Str := s2l " to "
def exU2 : Str := s2l "\"\nUser: "
def exU3 : Str := s2l " or /"
def exU4 : Str := s2l "\n\n"
def exU5 : Str := s2l ": 🎭 **Current Role**: "
def exU6 : Str := s2l " - "
def exU7 : Str := s2l "\n➡️ **Next Suggested Role**: "
def exU8 : Str := s2l " - Continue with next phase\n\nI\x27ll now begin the interactive session to gather the necessary information.\n\n## Question Overview\n[Presents hierarchical question structure]\n\nLet\x27s begin:\n\n**[1/N] First Topic Area**\n\n1. [First main question]?\n   > [Waits for user response]\n\x60\x60\x60"

/-- The lookup `question_structures.get(role_name, default)` of `add_interaction_pattern`. -/
def interactionPattern (r : Str) : Str :=
  if r = s2l "project-initiator" then qsProjectInitiator
  else if r = s2l "requirements-collector" then qsRequirementsCollector
  else if r = s2l "mvp-specialist" then qsMvpSpecialist
  else qsDefault

/-- Method `add_interaction_pattern`: `role_content + "\n" + pattern`. -/
def addInteractionPattern (content r : Str) : Str :=
  content ++ s2l "\n" ++ interactionPattern r

/-- The lookup `self.roles.get(role_name, {}).get('next_role', 'next appropriate role')`. -/
def nextRoleOf (r : Str) : Str :=
  (roles r).elim (s2l "next appropriate role") (fun i => i.next_role)

/-- The f-string `sop_template` of `add_standard_operating_procedures`. -/
def sopTemplate (r : Str) : Str := sopPre ++ nextRoleOf r

/-- Method `add_standard_operating_procedures`: `role_content + "\n" + sop_template`. -/
def addStandardOperatingProcedures (content r : Str) : Str :=
  content ++ s2l "\n" ++ sopTemplate r

def exNameA (r : Str) : Str := (roles r).elim (s2l "@role-name") (fun i => i.name)
def exDefA (r : Str) : Str := (roles r).elim (s2l "perform this task") (fun i => i.definition)
def exNameB (r : Str) : Str := (roles r).elim (s2l "Role") (fun i => i.name)
def exNameC (r : Str) : Str := (roles r).elim (s2l "Role Name") (fun i => i.name)
def exDefB (r : Str) : Str := (roles r).elim (s2l "Role description") (fun i => i.definition)
def exNextB (r : Str) : Str := (roles r).elim (s2l "Next Role") (fun i => i.next_role)

/-- The f-string `example` of `add_example_usage`, with the interpolated
`role_info.get` lookups and the interpolated `role_name` itself. -/
def exampleUsage (r : Str) : Str :=
  exU0 ++ exNameA r ++ exU1 ++ exDefA r ++ exU2 ++ exNameA r ++ exU3 ++ r ++
    exU4 ++ exNameB r ++ exU5 ++ exNameC r ++ exU6 ++ exDefB r ++ exU7 ++
    exNextB r ++ exU8

/-- Method `add_example_usage`: `role_content + "\n" + example`. -/
def addExampleUsage (content r : Str) : Str :=
  content ++ s2l "\n" ++ exampleUsage r

def hInteractive : Str := s2l "## Interactive Session Structure"
def hSOP : Str := s2l "## Standard Operating Procedures"
def hExample : Str := s2l "## Example Usage"
def hSummary : Str := s2l "SUMMARY & CONFIRMATION"
def hWorkflow : Str := s2l "WORKFLOW EVALUATION"
def h13Workflow : Str := s2l "13. WORKFLOW EVALUATION"
def hInstrumentation : Str := s2l "INSTRUMENTATION"
def hEight : Str := s2l "8. "

/-- First block of `add_missing_elements`: interaction pattern. -/
def stepOne (r body : Str) : Str :=
  if hasSub body hInteractive then body else addInteractionPattern body r

/-- Second block of `add_missing_elements`: SOPs. -/
def stepTwo (r body : Str) : Str :=
  if hasSub body hSOP then body else addStandardOperatingProcedures body r

/-- Third block of `add_missing_elements`: example usage. -/
def stepThree (r body : Str) : Str :=
  if hasSub body hExample then body else addExampleUsage body r

/-- The replacement string `confirmation_text + "\n13. WORKFLOW EVALUATION"`. -/
def confirmationRepl : Str := confirmationText ++ s2l "\n" ++ h13Workflow

/-- Fourth block of `add_missing_elements`: summary and confirmation.  The
insertion is keyed on the exact string `"13. WORKFLOW EVALUATION"`. -/
def stepFour (body : Str) : Str :=
  if hasSub body hSummary then body
  else if hasSub body hWorkflow then
    replaceAll h13Workflow confirmationRepl body
  else body ++ s2l "\n" ++ confirmationText

/-- The replacement string `instrumentation_text + "\n9. "`. -/
def instrumentationRepl : Str := instrumentationText ++ s2l "\n9. "

/-- Fifth block of `add_missing_elements`: instrumentation, inserted with
`re.sub(r"8\.\s+.*", instrumentation_text + "\n9. ", role_content)`. -/
def stepFive (body : Str) : Str :=
  if !hasSub body hInstrumentation && hasSub body hEight then
    reSub8 instrumentationRepl body
  else body

/-- The content component of `add_missing_elements`. -/
def migrateBody (r body : Str) : Str :=
  stepFive (stepFour (stepThree r (stepTwo r (stepOne r body))))

/-- Method `RoleMigrator.add_missing_elements`: returns the updated content and the
list of enhancement names appended along the way (each guard is evaluated on
the content as updated by the preceding blocks, as in the source). -/
def addMissingElements (r body : Str) : Str × List Str :=
  let c1 := stepOne r body
  let e1 : List Str := if hasSub body hInteractive then [] else [s2l "interaction_pattern"]
  let c2 := stepTwo r c1
  let e2 := e1 ++ (if hasSub c1 hSOP then [] else [s2l "standard_operating_procedures"])
  let c3 := stepThree r c2
  let e3 := e2 ++ (if hasSub c2 hExample then [] else [s2l "example_usage"])
  let c4 := stepFour c3
  let e4 := e3 ++ (if hasSub c3 hSummary then [] else [s2l "summary_confirmation"])
  let c5 := stepFive c4
  let e5 := e4 ++ (if !hasSub c4 hInstrumentation && hasSub c4 hEight then [s2l "instrumentation"] else [])
  (c5, e5)

/-- The f-string `migration_note` of `update_claude_md` (the current date is
a parameter). -/
def migrationNote (today : Str) : Str :=
  s2l "\n| role-template.md | Standardized template for all roles with interaction patterns | 1.0 | " ++ today ++ s2l " |"

/-- The f-string `version_section` of `update_claude_md`. -/
def versionSection (today : Str) : Str :=
  s2l "\n## Version History\n- v1.3 (" ++ today ++ s2l "): Migrated all roles to standardized template with hierarchical interaction patterns"

def hVersionRow : Str := s2l "| VERSION | Current version"
def hReminders : Str := s2l "# important-instruction-reminders"
def hRoleTemplate : Str := s2l "role-template.md"
def hVersionHistory : Str := s2l "## Version History"

/-- The content transformation of `RoleMigrator.update_claude_md`. -/
def updateClaudeMd (today content : Str) : Str :=
  let c1 :=
    if hasSub content hRoleTemplate then content
    else replaceAll hVersionRow (migrationNote today ++ s2l "\n" ++ hVersionRow) content
  if hasSub c1 hVersionHistory then c1
  else replaceAll hReminders (versionSection today ++ s2l "\n\n" ++ hReminders) c1

/-! ### File service (`server.py`) -/

/-- The filesystem visible to the server: a partial map from local path
strings to file contents (regular files only). -/
abbrev FS := Str → Option Str

/-- The `/api/file` branch of `FileServerHandler.do_GET`: `file_path` is the
`path` query parameter (defaulted to `""` by `query_params.get('path', [''])[0]`);
the branch answers 200 with the file text when `file_path` is truthy (nonempty)
and `'.' + file_path` exists, else 404. -/
def apiFileGet (fs : FS) (pathParam : Str) : Nat × Option Str :=
  if pathParam ≠ [] ∧ (fs (s2l "." ++ pathParam)).isSome then
    (200, fs (s2l "." ++ pathParam))
  else
    (404, none)

/-- The `/api/save` branch of `FileServerHandler.do_POST`: `pathField` and
`contentField` are the optional `path`/`content` members of the parsed JSON
body; `data.get` defaults each missing member to `""`.  The branch overwrites
`'.' + path` when that path is truthy (it always is, having the `"."` prefix)
and exists, answering 200; else it answers 404 and leaves the filesystem
unchanged. -/
def apiSave (fs : FS) (pathField contentField : Option Str) : Nat × FS :=
  let filePath := s2l "." ++ pathField.getD []
  let content := contentField.getD []
  if filePath ≠ [] ∧ (fs filePath).isSome then
    (200, fun q => if q = filePath then some content else fs q)
  else
    (404, fs)

/-- Method `FileServerHandler.do_POST`: only the exact path `/api/save` has a branch;
any other path falls off the end of the method and no response at all is
sent (modelled as `none`). -/
def doPost (fs : FS) (reqPath : Str) (pathField contentField : Option Str) :
    Option (Nat × FS) :=
  if reqPath = s2l "/api/save" then some (apiSave fs pathField contentField)
  else none

/-- The scanning loop of `FileServerHandler.get_file_preview` over
`lines[:10]` (already truncated by the caller below). -/
def previewLoop : List Str → Str
  | [] => s2l "Markdown documentation file"
  | l :: rest =>
    let line := pyStrip l
    if line ≠ [] ∧ ¬ isPre (s2l "#") line ∧ line.length > 20 then
      if line.length > 80 then line.take 80 ++ s2l "..." else line
    else previewLoop rest

/-- Method `FileServerHandler.get_file_preview`: `none` models a read failure
(the `except` arm); `some lines` is the `readlines()` result. -/
def getFilePreview (readResult : Option (List Str)) : Str :=
  match readResult with
  | none => s2l "File preview not available"
  | some lines => previewLoop (lines.take 10)

/-- Method `FileServerHandler.get_file_type`. -/
def getFileType (p : Str) : Str :=
  if hasSub p (s2l "AI-Roles.md") then s2l "roles"
  else if isPre (s2l ".claude/commands/") p then s2l "command"
  else if p = s2l "project-brief.md" ∨ p = s2l "mvp-requirements.md" ∨
      p = s2l "architecture.md" ∨ p = s2l "pseudo-code.md" ∨
      p = s2l "evidence-tests.md" then s2l "project"
  else s2l "doc"

/-- Python `os.path.basename`: the part after the last slash. -/
def basename (p : Str) : Str := (p.reverse.takeWhile (fun c => !(c = '/'))).reverse

/-- One `file_info` dict of `get_all_md_files`; the preview is supplied by a
function from paths to preview strings (abstracting the file reads). -/
structure FileInfo where
  name : Str
  path : Str
  ftype : Str
  preview : Str
deriving DecidableEq

def mkFileInfo (pf : Str → Str) (p : Str) : FileInfo :=
  ⟨basename p, s2l "/" ++ p, getFileType p, pf p⟩

/-- The category assignment of the loop in `get_all_md_files`:
`0` = Core Documentation, `1` = Project Files, `2` = Role Commands. -/
def categoryOf (p : Str) : Nat :=
  if isPre (s2l ".claude/commands/") p then 2
  else if p = s2l "README.md" ∨ p = s2l "CLAUDE.md" ∨ p = s2l "AI-Roles.md" ∨
      p = s2l "core-principles.md" ∨ p = s2l "CHANGELOG.md" then 0
  else 1

/-- One `{category, files}` result entry. -/
structure FileBucket where
  category : Str
  files : List FileInfo
deriving DecidableEq

/-- Name order used by `sorted(files, key=lambda x: x['name'])`:
lexicographic comparison by code point. -/
def strLe : Str → Str → Bool
  | [], _ => true
  | _ :: _, [] => false
  | a :: as, b :: bs => if a = b then strLe as bs else decide (a < b)

def nameLe (a b : FileInfo) : Prop := strLe a.name b.name = true

instance : DecidableRel nameLe := fun a b => by unfold nameLe; infer_instance

instance : IsTotal FileInfo nameLe := by
  constructor
  intro a b
  unfold nameLe
  generalize a.name = x
  generalize b.name = y
  induction x generalizing y with
  | nil => exact Or.inl rfl
  | cons u us ih =>
    cases y with
    | nil => exact Or.inr rfl
    | cons v vs =>
      by_cases huv : u = v
      · subst huv
        simp only [strLe, if_pos rfl]
        exact ih vs
      · rcases lt_or_gt_of_ne huv with hlt | hlt
        · refine Or.inl ?_
          simp only [strLe, if_neg huv]
          exact decide_eq_true hlt
        · refine Or.inr ?_
          simp only [strLe, if_neg (Ne.symm huv)]
          exact decide_eq_true hlt

instance : IsTrans FileInfo nameLe := by
  constructor
  intro a b c
  unfold nameLe
  generalize a.name = x
  generalize b.name = y
  generalize c.name = z
  induction x generalizing y z with
  | nil => intro _ _; rfl
  | cons u us ih =>
    intro hab hbc
    cases y with
    | nil => exact absurd hab (by simp [strLe])
    | cons v vs =>
      cases z with
      | nil => exact absurd hbc (by simp [strLe])
      | cons w ws =>
        by_cases huv : u = v <;> by_cases hvw : v = w
        · subst huv; subst hvw
          simp only [strLe, if_pos rfl] at hab hbc ⊢
          exact ih vs ws hab hbc
        · subst huv
          simp only [strLe, if_pos rfl] at hab
          simp only [strLe, if_neg hvw] at hbc ⊢
          exact hbc
        · subst hvw
          simp only [strLe, if_neg huv] at hab ⊢
          exact hab
        · simp only [strLe, if_neg huv] at hab
          simp only [strLe, if_neg hvw] at hbc
          have huw : u < w := lt_trans (of_decide_eq_true hab) (of_decide_eq_true hbc)
          simp only [strLe, if_neg (ne_of_lt huw)]
          exact decide_eq_true huw


/-- Method `FileServerHandler.get_all_md_files`: filter out `node_modules` paths,
build the per-file info dicts, group them into the three categories in
insertion order, then keep only nonempty categories, sorting each bucket by
file name (`sorted` is a stable sort by a total preorder, which is what
`List.insertionSort` computes). -/
def getAllMdFiles (pf : Str → Str) (mdFiles : List Str) : List FileBucket :=
  let files := mdFiles.filter (fun p => !hasSub p (s2l "node_modules"))
  let bucket := fun (i : Nat) =>
    (files.filter (fun p => categoryOf p = i)).map (mkFileInfo pf)
  let cats := [(s2l "Core Documentation", bucket 0),
               (s2l "Project Files", bucket 1),
               (s2l "Role Commands", bucket 2)]
  (cats.filter (fun c => !c.2.isEmpty)).map
    (fun c => ⟨c.1, List.insertionSort nameLe c.2⟩)

/-! ### Splitting and reassembly (`migrate_ai_roles_file`) -/

/-- The character class `[\w-]` of the role-heading regex, over ASCII. -/
def isWordChar (c : Char) : Bool := c.isAlphanum || c = '_' || c = '-'

/-- Does a match of `### @[\w-]+` start at the head of `s`? -/
def headingStartsHere (s : Str) : Bool :=
  isPre (s2l "### @") s && (s.drop 5).any (fun _ => true) &&
    (match (s.drop 5).head? with
     | some c => isWordChar c
     | none => false)

/-- Scan for the first heading match: returns the text before the match and,
if a match exists, the matched heading (greedy `[\w-]+`) with the remainder
after it. -/
def scanHeading : Str → Str × Option (Str × Str)
  | [] => ([], none)
  | c :: rest =>
    if headingStartsHere (c :: rest) then
      ([], some (s2l "### @" ++ ((c :: rest).drop 5).takeWhile isWordChar,
                 ((c :: rest).drop 5).dropWhile isWordChar))
    else
      let (p, q) := scanHeading rest
      (c :: p, q)

/-- Fueled splitter: `re.split(r'(### @[\w-]+)', content)` read as the
preamble followed by (heading, body) pairs — the association the loop of
`migrate_ai_roles_file` makes between `role_sections[i]` and
`role_sections[i+1]`. -/
def splitRolesF : Nat → Str → Str × List (Str × Str)
  | 0, s => (s, [])
  | fuel + 1, s =>
    match scanHeading s with
    | (p, none) => (p, [])
    | (p, some (h, r)) =>
      let (b, prs) := splitRolesF fuel r
      (p, (h, b) :: prs)

def splitRoles (s : Str) : Str × List (Str × Str) := splitRolesF s.length s

/-- Reassembly by string concatenation in original order, as in the loop of
`migrate_ai_roles_file` with unmodified bodies. -/
def reassembleRoles (x : Str × List (Str × Str)) : Str :=
  x.1 ++ (x.2.map (fun hb => hb.1 ++ hb.2)).flatten

def isSuf (p s : Str) : Bool := isPre p.reverse s.reverse

/-- All ways to cut `t` into two nonempty halves. -/
def splitsOf (t : Str) : List (Str × Str) :=
  (List.range' 1 (t.length - 1)).map fun i => (t.take i, t.drop i)

/-- The qualifying test of the preview loop: non-blank after stripping, not a
heading, longer than 20 characters. -/
def qualifies (l : Str) : Prop :=
  pyStrip l ≠ [] ∧ ¬ isPre (s2l "#") (pyStrip l) = true ∧ (pyStrip l).length > 20

instance (l : Str) : Decidable (qualifies l) := by unfold qualifies; infer_instance

def exDefaultPre : Str :=
  exU0 ++ s2l "@role-name" ++ exU1 ++ s2l "perform this task" ++ exU2 ++
    s2l "@role-name" ++ exU3

def exDefaultPost : Str :=
  exU4 ++ s2l "Role" ++ exU5 ++ s2l "Role Name" ++ exU6 ++
    s2l "Role description" ++ exU7 ++ s2l "Next Role" ++ exU8

/-! ### Bridging the Bool string tests to Mathlib sublist predicates -/

theorem isPre_iff {p s : Str} : isPre p s = true ↔ p <+: s := by
  induction p generalizing s with
  | nil => simp [isPre, List.nil_prefix]
  | cons a as ih =>
    cases s with
    | nil => simp [isPre]
    | cons b bs => simp [isPre, List.cons_prefix_iff, ih, And.comm]

theorem hasSub_iff {s pat : Str} : hasSub s pat = true ↔ pat <:+: s := by
  induction s with
  | nil => simp [hasSub, isPre_iff, List.infix_nil, List.prefix_nil]
  | cons c rest ih =>
    simp [hasSub, isPre_iff, ih, List.infix_cons_iff]

theorem hasSub_false_iff {s pat : Str} : hasSub s pat = false ↔ ¬ pat <:+: s := by
  rw [← hasSub_iff]; cases hasSub s pat <;> simp

theorem isSuf_iff {p s : Str} : isSuf p s = true ↔ p <:+ s := by
  rw [isSuf, isPre_iff, List.reverse_prefix]

/-! ### Splitting an infix occurrence across an append boundary -/

theorem mem_splitsOf {t t₁ t₂ : Str} (h : t = t₁ ++ t₂) (h1 : t₁ ≠ [])
    (h2 : t₂ ≠ []) : (t₁, t₂) ∈ splitsOf t := by
  have hlen : t.length = t₁.length + t₂.length := by simp [h]
  have h1' : 1 ≤ t₁.length := by
    cases t₁ with | nil => exact absurd rfl h1 | cons => simp
  have h2' : 1 ≤ t₂.length := by
    cases t₂ with | nil => exact absurd rfl h2 | cons => simp
  refine List.mem_map.mpr ⟨t₁.length, List.mem_range'_1.mpr ⟨h1', by omega⟩, ?_⟩
  subst h
  rw [List.take_left, List.drop_left]

theorem infix_append_cases {t x z : Str} (h : t <:+: x ++ z) :
    t <:+: x ∨ t <:+: z ∨
      ∃ t₁ t₂, t = t₁ ++ t₂ ∧ t₁ ≠ [] ∧ t₂ ≠ [] ∧ t₁ <:+ x ∧ t₂ <+: z := by
  obtain ⟨a, b, hab⟩ := h
  rw [List.append_assoc] at hab
  rcases List.append_eq_append_iff.mp hab with ⟨m, hx, hm⟩ | ⟨m, ha, hz⟩
  · rcases List.append_eq_append_iff.mp hm with ⟨k, hmk, hb⟩ | ⟨k, ht, hz'⟩
    · exact Or.inl ⟨a, k, by rw [hx, hmk, List.append_assoc]⟩
    · rcases eq_or_ne m [] with hm0 | hm0
      · subst hm0
        exact Or.inr (Or.inl ⟨[], b, by simp at ht ⊢; rw [ht, hz']⟩)
      · rcases eq_or_ne k [] with hk0 | hk0
        · subst hk0
          refine Or.inl ⟨a, [], ?_⟩
          rw [List.append_nil] at ht
          simp [hx, ← ht]
        · exact Or.inr (Or.inr ⟨m, k, ht, hm0, hk0,
            ⟨a, hx.symm⟩, ⟨b, hz'.symm⟩⟩)
  · exact Or.inr (Or.inl ⟨m, b, by rw [hz, List.append_assoc]⟩)

theorem suffix_drop_one {t t₁ t₂ : Str} (h : t = t₁ ++ t₂) (h1 : t₁ ≠ []) :
    t₂ <:+ t.drop 1 := by
  cases t₁ with
  | nil => exact absurd rfl h1
  | cons d t₁' =>
    subst h
    exact (List.suffix_append t₁' t₂).trans (by simp)

/-- No occurrence of `t` can be created across the boundary of `x ++ z` when
the head of `z` does not occur in `t` past its first character. -/
theorem notSub_append_head {t x z : Str} (hx : ¬ t <:+: x) (hz : ¬ t <:+: z)
    (hh : ∀ c, z.head? = some c → c ∉ t.drop 1) : ¬ t <:+: x ++ z := by
  intro h
  rcases infix_append_cases h with h' | h' | ⟨t₁, t₂, ht, h1, h2, _, hpz⟩
  · exact hx h'
  · exact hz h'
  · cases t₂ with
    | nil => exact h2 rfl
    | cons c t₂' =>
      obtain ⟨w, hw⟩ := hpz
      have hc : z.head? = some c := by rw [← hw]; rfl
      exact hh c hc (((suffix_drop_one ht h1).subset) (by simp))

/-- No occurrence of `t` can be created across the boundary of `x ++ z` when
no nonempty proper prefix of `t` is a suffix of `x`. -/
theorem notSub_append_suffix {t x z : Str} (hx : ¬ t <:+: x) (hz : ¬ t <:+: z)
    (hL : (splitsOf t).all (fun p => !isSuf p.1 x) = true) : ¬ t <:+: x ++ z := by
  intro h
  rcases infix_append_cases h with h' | h' | ⟨t₁, t₂, ht, h1, h2, hsx, _⟩
  · exact hx h'
  · exact hz h'
  · have := List.all_eq_true.mp hL _ (mem_splitsOf ht h1 h2)
    simp only [Bool.not_eq_true'] at this
    rw [← Bool.not_eq_true, isSuf_iff] at this
    exact this hsx

theorem hasSub_append_of_left {t x z : Str} (h : hasSub x t = true) :
    hasSub (x ++ z) t = true :=
  hasSub_iff.mpr ((hasSub_iff.mp h).trans (List.prefix_append x z).isInfix)

theorem hasSub_append_of_right {t x z : Str} (h : hasSub z t = true) :
    hasSub (x ++ z) t = true :=
  hasSub_iff.mpr ((hasSub_iff.mp h).trans (List.suffix_append x z).isInfix)

/-- Gluing a suffix of `x` and a prefix of `y` into an infix of `x ++ y`. -/
theorem suffix_prefix_glue {t₁ t₂ x y : Str} (h1 : t₁ <:+ x) (h2 : t₂ <+: y) :
    t₁ ++ t₂ <:+: x ++ y := by
  obtain ⟨q, hq⟩ := h1
  obtain ⟨w, hw⟩ := h2
  exact ⟨q, w, by rw [← hq, ← hw]; simp⟩

/-! ### Lemmas about `replaceAll` -/

theorem isPre_false_of_not_prefix {p s : Str} (h : ¬ p <+: s) : isPre p s = false := by
  rw [← Bool.not_eq_true, isPre_iff]; exact h

theorem isPre_nil_iff {p : Str} : isPre p [] = true ↔ p = [] := by
  cases p <;> simp [isPre]

theorem hasSub_cons_false {c : Char} {rest pat : Str}
    (h : hasSub (c :: rest) pat = false) :
    isPre pat (c :: rest) = false ∧ hasSub rest pat = false := by
  rw [hasSub, Bool.or_eq_false_iff] at h
  exact h

/-- Python `str.replace` is the identity when the pattern does not occur. -/
theorem replaceAllF_of_not_sub {pat repl : Str} :
    ∀ (fuel : Nat) (s : Str), hasSub s pat = false →
      replaceAllF pat repl fuel s = s := by
  intro fuel
  induction fuel with
  | zero => intro s _; rfl
  | succ fuel ih =>
    intro s h
    cases s with
    | nil => rfl
    | cons c rest =>
      obtain ⟨h1, h2⟩ := hasSub_cons_false h
      rw [replaceAllF, h1]
      simp only [Bool.false_eq_true, if_false]
      rw [ih rest h2]

theorem replaceAll_of_not_sub {pat repl s : Str} (h : hasSub s pat = false) :
    replaceAll pat repl s = s :=
  replaceAllF_of_not_sub s.length s h

/-- When the pattern occurs, the replacement text occurs in the output. -/
theorem replaceAllF_sub_repl {pat repl : Str} (hne : pat ≠ []) :
    ∀ (fuel : Nat) (s : Str), hasSub s pat = true → s.length ≤ fuel →
      ∃ a b, replaceAllF pat repl fuel s = a ++ repl ++ b := by
  intro fuel
  induction fuel with
  | zero =>
    intro s h hf
    have : s = [] := List.eq_nil_of_length_eq_zero (Nat.le_zero.mp hf)
    subst this
    simp only [hasSub] at h
    exact absurd (isPre_nil_iff.mp h) hne
  | succ fuel ih =>
    intro s h hf
    cases s with
    | nil =>
      simp only [hasSub] at h
      exact absurd (isPre_nil_iff.mp h) hne
    | cons c rest =>
      by_cases hp : isPre pat (c :: rest) = true
      · refine ⟨[], replaceAllF pat repl fuel ((c :: rest).drop pat.length), ?_⟩
        rw [replaceAllF, hp]
        simp
      · rw [hasSub, Bool.or_eq_true_iff] at h
        rcases h with h | h
        · exact absurd h hp
        · obtain ⟨a, b, hab⟩ := ih rest h (Nat.le_of_succ_le_succ hf)
          refine ⟨c :: a, b, ?_⟩
          rw [replaceAllF, Bool.eq_false_iff.mpr hp]
          simp [hab]

/-- A prefix of the input avoiding the pattern head survives `replaceAllF`. -/
theorem prefix_replaceAllF {pat repl : Str} {p : Char}
    (hp : pat.head? = some p) :
    ∀ (fuel : Nat) (u s : Str), p ∉ u → u <+: s →
      u <+: replaceAllF pat repl fuel s := by
  intro fuel
  induction fuel with
  | zero => intro u s _ h; exact h
  | succ fuel ih =>
    intro u s hu h
    cases s with
    | nil =>
      rw [List.prefix_nil] at h
      subst h
      exact List.nil_prefix
    | cons c rest =>
      by_cases hpre : isPre pat (c :: rest) = true
      · cases u with
        | nil => exact List.nil_prefix
        | cons d u' =>
          exfalso
          have hdc : d = c := (List.cons_prefix_iff.mp h).1
          have hpc : p = c := by
            obtain ⟨w, hw⟩ := isPre_iff.mp hpre
            cases pat with
            | nil => simp at hp
            | cons q qs =>
              have hq : q = c := by simpa using congrArg List.head? hw
              have hpq : p = q := by simpa using hp.symm
              rw [hpq, hq]
          exact hu (by simp [hpc, hdc.symm])
      · rw [replaceAllF, Bool.eq_false_iff.mpr hpre]
        simp only [Bool.false_eq_true, if_false]
        cases u with
        | nil => exact List.nil_prefix
        | cons d u' =>
          obtain ⟨hdc, h'⟩ := List.cons_prefix_iff.mp h
          subst hdc
          exact List.cons_prefix_iff.mpr
            ⟨rfl, ih u' rest (fun hm => hu (by simp [hm])) h'⟩

/-- Conversely, a prefix of the output of `replaceAllF` avoiding both the
pattern head and the replacement head was a prefix of the input. -/
theorem prefix_of_replaceAllF {pat repl : Str} {p r₀ : Char}
    (_hp : pat.head? = some p) (hr : repl.head? = some r₀) :
    ∀ (fuel : Nat) (u s : Str), p ∉ u → r₀ ∉ u →
      u <+: replaceAllF pat repl fuel s → u <+: s := by
  intro fuel
  induction fuel with
  | zero => intro u s _ _ h; exact h
  | succ fuel ih =>
    intro u s hup hur h
    cases s with
    | nil =>
      rw [replaceAllF] at h
      exact h
    | cons c rest =>
      by_cases hpre : isPre pat (c :: rest) = true
      · rw [replaceAllF, hpre] at h
        simp only [if_true] at h
        cases u with
        | nil => exact List.nil_prefix
        | cons d u' =>
          exfalso
          have hd : d = r₀ := by
            cases repl with
            | nil => simp at hr
            | cons e es =>
              have hde : d = e := (List.cons_prefix_iff.mp h).1
              have her : e = r₀ := by simpa using hr
              rw [hde, her]
          exact hur (by simp [hd])
      · rw [replaceAllF, Bool.eq_false_iff.mpr hpre] at h
        simp only [Bool.false_eq_true, if_false] at h
        cases u with
        | nil => exact List.nil_prefix
        | cons d u' =>
          obtain ⟨hdc, h'⟩ := List.cons_prefix_iff.mp h
          subst hdc
          exact List.cons_prefix_iff.mpr
            ⟨rfl, ih u' rest (fun hm => hup (by simp [hm]))
              (fun hm => hur (by simp [hm])) h'⟩

theorem isPre_prefix_decomp {pat s : Str} (h : isPre pat s = true) :
    s = pat ++ s.drop pat.length := by
  obtain ⟨w, hw⟩ := isPre_iff.mp h
  conv_lhs => rw [← hw]
  rw [← hw, List.drop_left]

/-- An infix of the input whose tail avoids the pattern head survives
`replaceAllF` when the replacement has the pattern as a suffix
(`repl = I ++ pat`, i.e. pure insertion before each occurrence). -/
theorem infix_replaceAllF {pat ins t : Str} {p : Char}
    (hp : pat.head? = some p) (hpt : p ∉ t.drop 1) :
    ∀ (fuel : Nat) (s : Str), t <:+: s →
      t <:+: replaceAllF pat (ins ++ pat) fuel s := by
  intro fuel
  induction fuel with
  | zero => intro s h; exact h
  | succ fuel ih =>
    intro s h
    cases s with
    | nil => rwa [replaceAllF]
    | cons c rest =>
      by_cases hpre : isPre pat (c :: rest) = true
      · rw [replaceAllF, hpre]
        simp only [if_true]
        have hdec := isPre_prefix_decomp hpre
        rw [hdec] at h
        rcases infix_append_cases h with h' | h' | ⟨t₁, t₂, ht, h1, h2, hsx, hpz⟩
        · exact (h'.trans (List.suffix_append ins pat).isInfix).trans
            (List.prefix_append _ _).isInfix
        · exact (ih _ h').trans (List.suffix_append _ _).isInfix
        · have ht2 : t₂ <+: replaceAllF pat (ins ++ pat) fuel ((c :: rest).drop pat.length) := by
            refine prefix_replaceAllF hp fuel t₂ _ ?_ hpz
            intro hm
            exact hpt ((suffix_drop_one ht h1).subset hm)
          have ht1 : t₁ <:+ ins ++ pat := hsx.trans (List.suffix_append ins pat)
          rw [ht]
          exact suffix_prefix_glue ht1 ht2
      · rw [replaceAllF, Bool.eq_false_iff.mpr hpre]
        simp only [Bool.false_eq_true, if_false]
        rcases List.infix_cons_iff.mp h with h' | h'
        · cases t with
          | nil => exact List.nil_infix
          | cons d t' =>
            obtain ⟨hdc, hpre'⟩ := List.cons_prefix_iff.mp h'
            subst hdc
            refine (List.cons_prefix_iff.mpr ⟨rfl, ?_⟩).isInfix
            refine prefix_replaceAllF hp fuel t' rest ?_ hpre'
            intro hm
            exact hpt (by simpa using hm)
        · exact List.infix_cons (ih rest h')

/-- No new occurrence of `t` is created by `replaceAllF` when `t` does not
occur in the replacement, no nonempty proper prefix of `t` is a suffix of
the replacement, and neither the pattern head nor the replacement head
occurs in the tail of `t`. -/
theorem not_infix_replaceAllF {pat repl t : Str} {p r₀ : Char}
    (hp : pat.head? = some p) (hr : repl.head? = some r₀) (htne : t ≠ [])
    (hpt : p ∉ t.drop 1) (hrt : r₀ ∉ t.drop 1) (htr : ¬ t <:+: repl)
    (hLS : (splitsOf t).all (fun pr => !isSuf pr.1 repl) = true) :
    ∀ (fuel : Nat) (s : Str), ¬ t <:+: s →
      ¬ t <:+: replaceAllF pat repl fuel s := by
  intro fuel
  induction fuel with
  | zero => intro s h; exact h
  | succ fuel ih =>
    intro s h
    cases s with
    | nil => rwa [replaceAllF]
    | cons c rest =>
      by_cases hpre : isPre pat (c :: rest) = true
      · rw [replaceAllF, hpre]
        simp only [if_true]
        intro hcontra
        rcases infix_append_cases hcontra with h' | h' | ⟨t₁, t₂, ht, h1, h2, hsx, _⟩
        · exact htr h'
        · refine ih _ ?_ h'
          intro hmem
          exact h (hmem.trans (List.drop_suffix _ _).isInfix)
        · have := List.all_eq_true.mp hLS _ (mem_splitsOf ht h1 h2)
          simp only [Bool.not_eq_true'] at this
          rw [← Bool.not_eq_true, isSuf_iff] at this
          exact this hsx
      · rw [replaceAllF, Bool.eq_false_iff.mpr hpre]
        simp only [Bool.false_eq_true, if_false]
        intro hcontra
        rcases List.infix_cons_iff.mp hcontra with h' | h'
        · cases t with
          | nil => exact htne rfl
          | cons d t' =>
            obtain ⟨hdc, hpre'⟩ := List.cons_prefix_iff.mp h'
            subst hdc
            have ht' : t' <+: rest := by
              refine prefix_of_replaceAllF hp hr fuel t' rest ?_ ?_ hpre'
              · intro hm; exact hpt (by simpa using hm)
              · intro hm; exact hrt (by simpa using hm)
            exact h (List.cons_prefix_iff.mpr ⟨rfl, ht'⟩).isInfix
        · exact ih rest (fun hm => h (List.infix_cons hm)) h'

/-- When `"8. "` occurs in the input, `re.sub` fires and the replacement text
occurs in the output. -/
theorem reSub8F_sub_repl {repl : Str} :
    ∀ (fuel : Nat) (s : Str), hasSub s hEight = true → s.length ≤ fuel →
      ∃ a b, reSub8F repl fuel s = a ++ repl ++ b := by
  intro fuel
  induction fuel with
  | zero =>
    intro s h hf
    have : s = [] := List.eq_nil_of_length_eq_zero (Nat.le_zero.mp hf)
    subst this
    simp [hasSub, hEight, s2l, isPre] at h
  | succ fuel ih =>
    intro s h hf
    cases s with
    | nil => simp [hasSub, hEight, s2l, isPre] at h
    | cons c rest =>
      match hm : sub8match (c :: rest) with
      | some rem =>
        refine ⟨[], reSub8F repl fuel rem, ?_⟩
        rw [reSub8F, hm]
        simp
      | none =>
        have hpre : isPre hEight (c :: rest) = false := by
          by_contra hc
          rw [Bool.not_eq_false] at hc
          obtain ⟨w, hw⟩ := isPre_iff.mp hc
          have hw' : c :: rest = '8' :: '.' :: ' ' :: w := by
            rw [← hw]; rfl
          rw [hw'] at hm
          simp [sub8match, List.takeWhile, pyWs] at hm
        rw [hasSub, Bool.or_eq_true_iff] at h
        rcases h with h | h
        · rw [hpre] at h; exact absurd h (by simp)
        · obtain ⟨a, b, hab⟩ := ih rest h (Nat.le_of_succ_le_succ hf)
          refine ⟨c :: a, b, ?_⟩
          rw [reSub8F, hm]
          simp [hab]

/-! ### Round trip of the role splitter -/

theorem scanHeading_spec (s : Str) :
    s = (scanHeading s).1 ++ ((scanHeading s).2.elim [] (fun hr => hr.1 ++ hr.2)) := by
  induction s with
  | nil => rfl
  | cons c rest ih =>
    by_cases hh : headingStartsHere (c :: rest) = true
    · rw [scanHeading, hh]
      simp only [if_true, Option.elim_some, List.nil_append]
      have hpre : isPre (s2l "### @") (c :: rest) = true := by
        simp only [headingStartsHere, Bool.and_eq_true] at hh
        exact hh.1.1
      have hdec := isPre_prefix_decomp hpre
      conv_lhs => rw [hdec]
      rw [List.append_assoc, List.takeWhile_append_dropWhile]
      rfl
    · rw [scanHeading, Bool.eq_false_iff.mpr hh]
      simp only [Bool.false_eq_true, if_false]
      conv_lhs => rw [ih]
      rfl

theorem splitRolesF_reassemble : ∀ (fuel : Nat) (s : Str),
    reassembleRoles (splitRolesF fuel s) = s := by
  intro fuel
  induction fuel with
  | zero => intro s; simp [splitRolesF, reassembleRoles]
  | succ fuel ih =>
    intro s
    have hspec := scanHeading_spec s
    rcases hsc : scanHeading s with ⟨p, o⟩
    rw [hsc] at hspec
    cases o with
    | none =>
      rw [splitRolesF, hsc]
      simpa [reassembleRoles] using hspec.symm
    | some hr =>
      rcases hr with ⟨h, r⟩
      have ihr := ih r
      rcases hsplit : splitRolesF fuel r with ⟨b, prs⟩
      rw [hsplit] at ihr
      have hred : splitRolesF (fuel + 1) s = (p, (h, b) :: prs) := by
        simp only [splitRolesF, hsc, hsplit]
      rw [hred]
      simp only [reassembleRoles, List.map_cons, List.flatten_cons] at ihr ⊢
      simp only [Option.elim_some] at hspec
      rw [hspec, ← ihr]
      simp [List.append_assoc]

/-- Claim C4: splitting a document on the `### @`-heading pattern (capturing
the headings) and concatenating the preamble followed by each (heading, body)
pair in original order reproduces the original document byte-for-byte. -/
theorem c4_split_reassemble_round_trip (s : Str) :
    reassembleRoles (splitRoles s) = s :=
  splitRolesF_reassemble s.length s

/-- Claim C5: a `GET /api/file?path=P` request for which `.P` does not exist
is answered 404; a `POST /api/save` whose JSON path names a non-existent
local file is answered 404 with the filesystem unchanged; and the save
endpoint never creates a file (any path unmapped before a save is still
unmapped after it). -/
theorem apiSave_eq (fs : FS) (pf cf : Option Str) :
    apiSave fs pf cf =
      if (fs (s2l "." ++ pf.getD [])).isSome then
        (200, fun q => if q = s2l "." ++ pf.getD [] then some (cf.getD []) else fs q)
      else (404, fs) := by
  have hne : s2l "." ++ pf.getD [] ≠ [] := by simp [s2l]
  simp [apiSave, hne]

theorem c5_service_404_contract (fs : FS) (P : Str)
    (h : fs (s2l "." ++ P) = none) :
    (apiFileGet fs P).1 = 404 ∧
    (∀ c, apiSave fs (some P) c = (404, fs)) ∧
    (∀ pf cf q, fs q = none → ((apiSave fs pf cf).2) q = none) := by
  refine ⟨?_, ?_, ?_⟩
  · simp [apiFileGet, h]
  · intro c
    simp [apiSave, h]
  · intro pf cf q hq
    rw [apiSave_eq]
    by_cases hex : (fs (s2l "." ++ pf.getD [])).isSome
    · rw [if_pos hex]
      have hne : q ≠ s2l "." ++ pf.getD [] := by
        intro he
        rw [he] at hq
        rw [hq] at hex
        simp at hex
      simp [hne, hq]
    · rw [if_neg hex]
      exact hq

theorem c5_witness :
    ((fun _ => none : FS) (s2l "." ++ s2l "/nonexistent.md") = none) ∧
    (apiFileGet (fun _ => none) (s2l "/nonexistent.md")).1 = 404 ∧
    apiSave (fun _ => none) (some (s2l "/nonexistent.md")) (some (s2l "x")) =
      (404, (fun _ => none : FS)) := by
  have h := c5_service_404_contract (fun _ => none) (s2l "/nonexistent.md") rfl
  exact ⟨rfl, h.1, h.2.1 (some (s2l "x"))⟩

/-- Claim C6: a `POST /api/save` whose JSON body lacks the `path` or the
`content` key behaves exactly as if the missing value were the empty string;
the handler then proceeds to the ordinary existence check (status 200 or 404)
rather than reporting a validation failure. -/
theorem c6_missing_json_keys_degrade (fs : FS) :
    (∀ c, apiSave fs none c = apiSave fs (some []) c) ∧
    (∀ p, apiSave fs p none = apiSave fs p (some [])) ∧
    (∀ c, (apiSave fs none c).1 =
      if (fs (s2l ".")).isSome then 200 else 404) := by
  refine ⟨fun c => rfl, fun p => rfl, fun c => ?_⟩
  rw [apiSave_eq]
  simp only [Option.getD_none, List.append_nil]
  by_cases hex : (fs (s2l ".")).isSome
  · simp [hex]
  · simp [hex]

/-- Claim C10 (implicit): `do_POST` has a branch only for the exact path
`/api/save`; for any other request path it sends no response at all. -/
theorem c10_post_other_paths_no_response (fs : FS) (reqPath : Str)
    (pf cf : Option Str) (h : reqPath ≠ s2l "/api/save") :
    doPost fs reqPath pf cf = none := by
  simp [doPost, h]

theorem c10_witness :
    (s2l "/api/files" ≠ s2l "/api/save") ∧
    doPost (fun _ => none) (s2l "/api/files") none none = none :=
  ⟨by decide, c10_post_other_paths_no_response _ _ _ _ (by decide)⟩

/-- Claim C9: when neither anchor marker (the `| VERSION | Current version`
row, the `# important-instruction-reminders` heading) occurs in the document
and neither insertion guard (`role-template.md`, `## Version History`) occurs
either, `update_claude_md` leaves the content unchanged (and, being a total
function of the content, raises no error). -/
theorem c9_update_claude_md_silent_skip (today content : Str)
    (h1 : hasSub content hVersionRow = false)
    (h2 : hasSub content hReminders = false)
    (h3 : hasSub content hRoleTemplate = false)
    (h4 : hasSub content hVersionHistory = false) :
    updateClaudeMd today content = content := by
  have e1 : replaceAll hVersionRow
      (migrationNote today ++ s2l "\n" ++ hVersionRow) content = content :=
    replaceAll_of_not_sub h1
  have e2 : replaceAll hReminders
      (versionSection today ++ s2l "\n\n" ++ hReminders) content = content :=
    replaceAll_of_not_sub h2
  simp only [updateClaudeMd, h3, Bool.false_eq_true, if_false, e1, h4, e2]

theorem c9_witness :
    (hasSub (s2l "# CLAUDE guidance\nplain text\n") hVersionRow = false ∧
     hasSub (s2l "# CLAUDE guidance\nplain text\n") hReminders = false ∧
     hasSub (s2l "# CLAUDE guidance\nplain text\n") hRoleTemplate = false ∧
     hasSub (s2l "# CLAUDE guidance\nplain text\n") hVersionHistory = false) ∧
    updateClaudeMd (s2l "2025-09-04") (s2l "# CLAUDE guidance\nplain text\n") =
      s2l "# CLAUDE guidance\nplain text\n" :=
  ⟨⟨by decide, by decide, by decide, by decide⟩,
    c9_update_claude_md_silent_skip _ _ (by decide) (by decide) (by decide) (by decide)⟩

/-! ### Preview extraction (C7) -/

theorem previewLoop_fallback : ∀ (ls : List Str),
    (∀ l ∈ ls, pyStrip l = [] ∨ isPre (s2l "#") (pyStrip l) = true) →
    previewLoop ls = s2l "Markdown documentation file" := by
  intro ls
  induction ls with
  | nil => intro _; rfl
  | cons l rest ih =>
    intro h
    have hnq : ¬ (pyStrip l ≠ [] ∧ ¬ isPre (s2l "#") (pyStrip l) = true ∧
        (pyStrip l).length > 20) := by
      rcases h l (by simp) with h' | h'
      · intro hc; exact hc.1 h'
      · intro hc; exact hc.2.1 h'
    rw [previewLoop]
    simp only [if_neg hnq]
    exact ih (fun l' hl' => h l' (by simp [hl']))

theorem previewLoop_first_qualifying : ∀ (pre : List Str) (l : Str) (post : List Str),
    (∀ l' ∈ pre, ¬ qualifies l') → qualifies l →
    previewLoop (pre ++ l :: post) =
      (if (pyStrip l).length > 80 then (pyStrip l).take 80 ++ s2l "..." else pyStrip l) := by
  intro pre
  induction pre with
  | nil =>
    intro l post _ hq
    unfold qualifies at hq
    rw [List.nil_append]
    simp only [previewLoop]
    rw [if_pos hq]
  | cons p pre' ih =>
    intro l post hpre hq
    have hnp := hpre p (by simp)
    unfold qualifies at hnp
    rw [List.cons_append]
    simp only [previewLoop]
    rw [if_neg hnp]
    exact ih l post (fun l' hl' => hpre l' (by simp [hl'])) hq

/-- Claim C7: (a) a readable file whose first ten lines are all Markdown
headings or blank gets the fixed fallback preview; (b) when the first
qualifying line among the first ten has 90 characters after stripping, the
preview is its first 80 characters followed by an ellipsis; (c) a read error
yields the fixed unavailability string. -/
theorem c7_preview_extraction :
    (∀ lines : List Str,
      (∀ l ∈ lines.take 10, pyStrip l = [] ∨ isPre (s2l "#") (pyStrip l) = true) →
      getFilePreview (some lines) = s2l "Markdown documentation file") ∧
    (∀ (lines : List Str) (pre : List Str) (l : Str) (post : List Str),
      lines.take 10 = pre ++ l :: post →
      (∀ l' ∈ pre, ¬ qualifies l') → qualifies l → (pyStrip l).length = 90 →
      getFilePreview (some lines) = (pyStrip l).take 80 ++ s2l "...") ∧
    getFilePreview none = s2l "File preview not available" := by
  refine ⟨?_, ?_, rfl⟩
  · intro lines h
    exact previewLoop_fallback (lines.take 10) h
  · intro lines pre l post hsplit hpre hq hlen
    show previewLoop (lines.take 10) = _
    rw [hsplit, previewLoop_first_qualifying pre l post hpre hq, hlen]
    simp

theorem c7_witness :
    ([s2l "# Title", s2l "   ", s2l "This qualifying line is exactly ninety characters long when measured right after stripping"].take 10 =
      [s2l "# Title", s2l "   "] ++
        (s2l "This qualifying line is exactly ninety characters long when measured right after stripping") :: []) ∧
    (∀ l' ∈ [s2l "# Title", s2l "   "], ¬ qualifies l') ∧
    qualifies (s2l "This qualifying line is exactly ninety characters long when measured right after stripping") ∧
    (pyStrip (s2l "This qualifying line is exactly ninety characters long when measured right after stripping")).length = 90 ∧
    getFilePreview (some [s2l "# Title", s2l "   ", s2l "This qualifying line is exactly ninety characters long when measured right after stripping"]) =
      (pyStrip (s2l "This qualifying line is exactly ninety characters long when measured right after stripping")).take 80 ++ s2l "..." := by
  refine ⟨by decide, by decide, by decide, by decide, ?_⟩
  exact c7_preview_extraction.2.1
    [s2l "# Title", s2l "   ", s2l "This qualifying line is exactly ninety characters long when measured right after stripping"]
    [s2l "# Title", s2l "   "]
    (s2l "This qualifying line is exactly ninety characters long when measured right after stripping")
    [] (by decide) (by decide) (by decide) (by decide)

/-! ### Categorization and listing (C8) -/

theorem mem_rolecommands_bucket (pf : Str → Str) (ps : List Str) (p : Str)
    (hp : p ∈ ps) (hnm : hasSub p (s2l "node_modules") = false)
    (hc : categoryOf p = 2) :
    ∃ b ∈ getAllMdFiles pf ps, b.category = s2l "Role Commands" ∧
      mkFileInfo pf p ∈ b.files := by
  have hmemf : p ∈ ps.filter (fun q => !hasSub q (s2l "node_modules")) :=
    List.mem_filter.mpr ⟨hp, by simp [hnm]⟩
  have hmemi : mkFileInfo pf p ∈
      ((ps.filter (fun q => !hasSub q (s2l "node_modules"))).filter
        (fun q => categoryOf q = 2)).map (mkFileInfo pf) :=
    List.mem_map_of_mem _ (List.mem_filter.mpr ⟨hmemf, by simp [hc]⟩)
  refine ⟨⟨s2l "Role Commands", List.insertionSort nameLe
      (((ps.filter (fun q => !hasSub q (s2l "node_modules"))).filter
        (fun q => categoryOf q = 2)).map (mkFileInfo pf))⟩, ?_, rfl, ?_⟩
  · simp only [getAllMdFiles]
    have hpair : (s2l "Role Commands",
        ((ps.filter (fun q => !hasSub q (s2l "node_modules"))).filter
          (fun q => categoryOf q = 2)).map (mkFileInfo pf)) ∈
      List.filter (fun c => !c.2.isEmpty)
        [(s2l "Core Documentation",
          ((ps.filter (fun q => !hasSub q (s2l "node_modules"))).filter
          (fun q => categoryOf q = 0)).map (mkFileInfo pf)),
         (s2l "Project Files",
          ((ps.filter (fun q => !hasSub q (s2l "node_modules"))).filter
          (fun q => categoryOf q = 1)).map (mkFileInfo pf)),
         (s2l "Role Commands",
          ((ps.filter (fun q => !hasSub q (s2l "node_modules"))).filter
          (fun q => categoryOf q = 2)).map (mkFileInfo pf))] := by
      refine List.mem_filter.mpr ⟨List.mem_cons_of_mem _ (List.mem_cons_of_mem _ (List.mem_cons_self _ _)), ?_⟩
      rcases hbe : ((ps.filter (fun q => !hasSub q (s2l "node_modules"))).filter
          (fun q => categoryOf q = 2)).map (mkFileInfo pf) with _ | ⟨x, xs⟩
      · rw [hbe] at hmemi
        exact absurd hmemi (List.not_mem_nil _)
      · simp [hbe]
    exact List.mem_map_of_mem _ hpair
  · exact (List.mem_insertionSort nameLe).mpr hmemi

theorem mem_coredoc_bucket (pf : Str → Str) (ps : List Str) (p : Str)
    (hp : p ∈ ps) (hnm : hasSub p (s2l "node_modules") = false)
    (hc : categoryOf p = 0) :
    ∃ b ∈ getAllMdFiles pf ps, b.category = s2l "Core Documentation" ∧
      mkFileInfo pf p ∈ b.files := by
  have hmemf : p ∈ ps.filter (fun q => !hasSub q (s2l "node_modules")) :=
    List.mem_filter.mpr ⟨hp, by simp [hnm]⟩
  have hmemi : mkFileInfo pf p ∈
      ((ps.filter (fun q => !hasSub q (s2l "node_modules"))).filter
        (fun q => categoryOf q = 0)).map (mkFileInfo pf) :=
    List.mem_map_of_mem _ (List.mem_filter.mpr ⟨hmemf, by simp [hc]⟩)
  refine ⟨⟨s2l "Core Documentation", List.insertionSort nameLe
      (((ps.filter (fun q => !hasSub q (s2l "node_modules"))).filter
        (fun q => categoryOf q = 0)).map (mkFileInfo pf))⟩, ?_, rfl, ?_⟩
  · simp only [getAllMdFiles]
    have hpair : (s2l "Core Documentation",
        ((ps.filter (fun q => !hasSub q (s2l "node_modules"))).filter
          (fun q => categoryOf q = 0)).map (mkFileInfo pf)) ∈
      List.filter (fun c => !c.2.isEmpty)
        [(s2l "Core Documentation",
          ((ps.filter (fun q => !hasSub q (s2l "node_modules"))).filter
          (fun q => categoryOf q = 0)).map (mkFileInfo pf)),
         (s2l "Project Files",
          ((ps.filter (fun q => !hasSub q (s2l "node_modules"))).filter
          (fun q => categoryOf q = 1)).map (mkFileInfo pf)),
         (s2l "Role Commands",
          ((ps.filter (fun q => !hasSub q (s2l "node_modules"))).filter
          (fun q => categoryOf q = 2)).map (mkFileInfo pf))] := by
      refine List.mem_filter.mpr ⟨List.mem_cons_self _ _, ?_⟩
      rcases hbe : ((ps.filter (fun q => !hasSub q (s2l "node_modules"))).filter
          (fun q => categoryOf q = 0)).map (mkFileInfo pf) with _ | ⟨x, xs⟩
      · rw [hbe] at hmemi
        exact absurd hmemi (List.not_mem_nil _)
      · simp [hbe]
    exact List.mem_map_of_mem _ hpair
  · exact (List.mem_insertionSort nameLe).mpr hmemi

/-- Claim C8: the path `.claude/commands/coder.md` is bucketed as Role
Commands with type `command`, `AI-Roles.md` as Core Documentation with type
`roles`; the `/api/files` result lists the buckets in the fixed order
Core Documentation, Project Files, Role Commands (a sublist of that order,
because empty buckets are omitted), and each listed bucket is nonempty with
its entries sorted by file name. -/
theorem c8_categorization_and_listing :
    (getFileType (s2l ".claude/commands/coder.md") = s2l "command" ∧
     categoryOf (s2l ".claude/commands/coder.md") = 2 ∧
     getFileType (s2l "AI-Roles.md") = s2l "roles" ∧
     categoryOf (s2l "AI-Roles.md") = 0) ∧
    (∀ (pf : Str → Str) (ps : List Str) (p : Str), p ∈ ps →
      hasSub p (s2l "node_modules") = false → categoryOf p = 2 →
      ∃ b ∈ getAllMdFiles pf ps, b.category = s2l "Role Commands" ∧
        mkFileInfo pf p ∈ b.files) ∧
    (∀ (pf : Str → Str) (ps : List Str) (p : Str), p ∈ ps →
      hasSub p (s2l "node_modules") = false → categoryOf p = 0 →
      ∃ b ∈ getAllMdFiles pf ps, b.category = s2l "Core Documentation" ∧
        mkFileInfo pf p ∈ b.files) ∧
    (∀ (pf : Str → Str) (ps : List Str),
      List.Sublist ((getAllMdFiles pf ps).map FileBucket.category)
        [s2l "Core Documentation", s2l "Project Files", s2l "Role Commands"]) ∧
    (∀ (pf : Str → Str) (ps : List Str), ∀ b ∈ getAllMdFiles pf ps,
      b.files ≠ [] ∧ List.Sorted nameLe b.files) := by
  refine ⟨⟨by decide, by decide, by decide, by decide⟩,
    mem_rolecommands_bucket, mem_coredoc_bucket, ?_, ?_⟩
  · intro pf ps
    have hsub := (List.filter_sublist
      (p := fun c : Str × List FileInfo => !c.2.isEmpty)
      [(s2l "Core Documentation",
          ((ps.filter (fun q => !hasSub q (s2l "node_modules"))).filter
            (fun q => categoryOf q = 0)).map (mkFileInfo pf)),
        (s2l "Project Files",
          ((ps.filter (fun q => !hasSub q (s2l "node_modules"))).filter
            (fun q => categoryOf q = 1)).map (mkFileInfo pf)),
        (s2l "Role Commands",
          ((ps.filter (fun q => !hasSub q (s2l "node_modules"))).filter
            (fun q => categoryOf q = 2)).map (mkFileInfo pf))]).map (fun c => c.1)
    simpa [getAllMdFiles, List.map_map, Function.comp] using hsub
  · intro pf ps b hb
    simp only [getAllMdFiles, List.mem_map] at hb
    obtain ⟨c, hcf, hbc⟩ := hb
    have hq := List.of_mem_filter hcf
    constructor
    · intro hnil
      rw [← hbc] at hnil
      simp only at hnil
      have hc2 : c.2 = [] := by
        have hperm := List.perm_insertionSort nameLe c.2
        rw [hnil] at hperm
        exact hperm.symm.eq_nil
      simp [hc2] at hq
    · rw [← hbc]
      exact List.sorted_insertionSort nameLe c.2

theorem c8_witness :
    ((s2l ".claude/commands/coder.md" ∈
        [s2l ".claude/commands/coder.md", s2l "AI-Roles.md"]) ∧
      hasSub (s2l ".claude/commands/coder.md") (s2l "node_modules") = false ∧
      categoryOf (s2l ".claude/commands/coder.md") = 2) ∧
    ∃ b ∈ getAllMdFiles (fun _ => s2l "p")
        [s2l ".claude/commands/coder.md", s2l "AI-Roles.md"],
      b.category = s2l "Role Commands" ∧
        mkFileInfo (fun _ => s2l "p") (s2l ".claude/commands/coder.md") ∈ b.files := by
  refine ⟨⟨by decide, by decide, by decide⟩, ?_⟩
  exact c8_categorization_and_listing.2.1 (fun _ => s2l "p")
    [s2l ".claude/commands/coder.md", s2l "AI-Roles.md"]
    (s2l ".claude/commands/coder.md") (by decide) (by decide) (by decide)

/-! ### Shape lemmas for the five blocks of `add_missing_elements` -/

theorem addMissingElements_fst (r body : Str) :
    (addMissingElements r body).1 = migrateBody r body := rfl

theorem stepOne_shape (r b : Str) :
    stepOne r b = b ∨ stepOne r b = (b ++ s2l "\n") ++ interactionPattern r := by
  unfold stepOne addInteractionPattern
  split
  · exact Or.inl rfl
  · exact Or.inr rfl

theorem stepTwo_shape (r b : Str) :
    stepTwo r b = b ∨ stepTwo r b = (b ++ s2l "\n") ++ sopTemplate r := by
  unfold stepTwo addStandardOperatingProcedures
  split
  · exact Or.inl rfl
  · exact Or.inr rfl

theorem stepThree_shape (r b : Str) :
    stepThree r b = b ∨ stepThree r b = (b ++ s2l "\n") ++ exampleUsage r := by
  unfold stepThree addExampleUsage
  split
  · exact Or.inl rfl
  · exact Or.inr rfl

theorem stepFour_shape (b : Str) :
    stepFour b = b ∨ stepFour b = replaceAll h13Workflow confirmationRepl b ∨
      stepFour b = (b ++ s2l "\n") ++ confirmationText := by
  unfold stepFour
  split
  · exact Or.inl rfl
  · split
    · exact Or.inr (Or.inl rfl)
    · exact Or.inr (Or.inr rfl)

theorem stepOne_eq_pos {r b : Str} (h : hasSub b hInteractive = true) :
    stepOne r b = b := by unfold stepOne; rw [h]; simp

theorem stepOne_eq_neg {r b : Str} (h : hasSub b hInteractive = false) :
    stepOne r b = (b ++ s2l "\n") ++ interactionPattern r := by
  unfold stepOne addInteractionPattern; rw [h]; simp

theorem stepTwo_eq_pos {r b : Str} (h : hasSub b hSOP = true) :
    stepTwo r b = b := by unfold stepTwo; rw [h]; simp

theorem stepTwo_eq_neg {r b : Str} (h : hasSub b hSOP = false) :
    stepTwo r b = (b ++ s2l "\n") ++ sopTemplate r := by
  unfold stepTwo addStandardOperatingProcedures; rw [h]; simp

theorem stepThree_eq_pos {r b : Str} (h : hasSub b hExample = true) :
    stepThree r b = b := by unfold stepThree; rw [h]; simp

theorem stepThree_eq_neg {r b : Str} (h : hasSub b hExample = false) :
    stepThree r b = (b ++ s2l "\n") ++ exampleUsage r := by
  unfold stepThree addExampleUsage; rw [h]; simp

theorem stepFour_eq_skip {b : Str} (h : hasSub b hSummary = true) :
    stepFour b = b := by unfold stepFour; rw [h]; simp

theorem stepFour_eq_insert {b : Str} (h1 : hasSub b hSummary = false)
    (h2 : hasSub b hWorkflow = true) :
    stepFour b = replaceAll h13Workflow confirmationRepl b := by
  unfold stepFour; rw [h1, h2]; simp

theorem stepFour_eq_append {b : Str} (h1 : hasSub b hSummary = false)
    (h2 : hasSub b hWorkflow = false) :
    stepFour b = (b ++ s2l "\n") ++ confirmationText := by
  unfold stepFour; rw [h1, h2]; simp

theorem stepFive_eq_skip {b : Str}
    (h : hasSub b hInstrumentation = true ∨ hasSub b hEight = false) :
    stepFive b = b := by
  unfold stepFive
  rcases h with h | h <;> rw [h] <;> simp

theorem stepFive_eq_sub {b : Str} (h1 : hasSub b hInstrumentation = false)
    (h2 : hasSub b hEight = true) :
    stepFive b = reSub8 instrumentationRepl b := by
  unfold stepFive; rw [h1, h2]; simp

/-! ### Bool-level corollaries of the append/replace lemmas -/

theorem notSub_append_suffixB {t x z : Str} (hx : hasSub x t = false)
    (hz : hasSub z t = false)
    (hL : (splitsOf t).all (fun p => !isSuf p.1 x) = true) :
    hasSub (x ++ z) t = false :=
  hasSub_false_iff.mpr
    (notSub_append_suffix (hasSub_false_iff.mp hx) (hasSub_false_iff.mp hz) hL)

theorem notSub_append_headB {t x z : Str} (hx : hasSub x t = false)
    (hz : hasSub z t = false)
    (hh : ∀ c, z.head? = some c → c ∉ t.drop 1) :
    hasSub (x ++ z) t = false :=
  hasSub_false_iff.mpr
    (notSub_append_head (hasSub_false_iff.mp hx) (hasSub_false_iff.mp hz) hh)

theorem hasSub_trans_of_sub {t u s : Str} (htu : hasSub u t = true)
    (hus : hasSub s u = true) : hasSub s t = true :=
  hasSub_iff.mpr ((hasSub_iff.mp htu).trans (hasSub_iff.mp hus))

/-- No occurrence of the needle `d :: t'` (whose head is not a newline, and
whose tail has no newline) is created by appending `"\n" ++ T` when the
needle occurs neither in the base nor in `T`. -/
theorem notSub_append_nl {b T : Str} {d : Char} {t' : Str}
    (hd : (d == '\n') = false)
    (hb : hasSub b (d :: t') = false) (hT : hasSub T (d :: t') = false)
    (hnl : '\n' ∉ t') :
    hasSub ((b ++ s2l "\n") ++ T) (d :: t') = false := by
  rw [List.append_assoc]
  refine notSub_append_headB hb ?_ ?_
  · show hasSub ('\n' :: T) (d :: t') = false
    have hpre : isPre (d :: t') ('\n' :: T) = false := by
      rw [isPre, hd]; rfl
    rw [hasSub, hpre, hT]
    rfl
  · intro c hc
    have h2 : ('\n' :: T).head? = some c := hc
    injection h2 with h3
    rw [← h3]
    simpa using hnl

/-- Generic reduction of a membership in a finite list of candidate values. -/
theorem notSub_of_mem_all {t v : Str} {vs : List Str} (hmem : v ∈ vs)
    (hall : vs.all (fun w => !hasSub w t) = true) : hasSub v t = false := by
  have := List.all_eq_true.mp hall v hmem
  simpa using this

/-! ### Facts about the concrete templates -/

theorem roles_key_cases (r : Str) :
    roles r = none ∨ r = s2l "project-initiator" ∨
      r = s2l "requirements-collector" ∨ r = s2l "mvp-specialist" ∨
      r = s2l "architect" ∨ r = s2l "planner" ∨ r = s2l "pseudo-coder" ∨
      r = s2l "tdd-evidence-specialist" ∨ r = s2l "coder" ∨
      r = s2l "documentation-writer" ∨ r = s2l "git-mate" := by
  by_cases h1 : r = s2l "project-initiator"
  · exact Or.inr (Or.inl h1)
  by_cases h2 : r = s2l "requirements-collector"
  · exact Or.inr (Or.inr (Or.inl h2))
  by_cases h3 : r = s2l "mvp-specialist"
  · exact Or.inr (Or.inr (Or.inr (Or.inl h3)))
  by_cases h4 : r = s2l "architect"
  · exact Or.inr (Or.inr (Or.inr (Or.inr (Or.inl h4))))
  by_cases h5 : r = s2l "planner"
  · exact Or.inr (Or.inr (Or.inr (Or.inr (Or.inr (Or.inl h5)))))
  by_cases h6 : r = s2l "pseudo-coder"
  · exact Or.inr (Or.inr (Or.inr (Or.inr (Or.inr (Or.inr (Or.inl h6))))))
  by_cases h7 : r = s2l "tdd-evidence-specialist"
  · exact Or.inr (Or.inr (Or.inr (Or.inr (Or.inr (Or.inr (Or.inr (Or.inl h7)))))))
  by_cases h8 : r = s2l "coder"
  · exact Or.inr (Or.inr (Or.inr (Or.inr (Or.inr (Or.inr (Or.inr (Or.inr (Or.inl h8))))))))
  by_cases h9 : r = s2l "documentation-writer"
  · exact Or.inr (Or.inr (Or.inr (Or.inr (Or.inr (Or.inr (Or.inr (Or.inr (Or.inr (Or.inl h9)))))))))
  by_cases h10 : r = s2l "git-mate"
  · exact Or.inr (Or.inr (Or.inr (Or.inr (Or.inr (Or.inr (Or.inr (Or.inr (Or.inr (Or.inr h10)))))))))
  · exact Or.inl (by simp [roles, h1, h2, h3, h4, h5, h6, h7, h8, h9, h10])

theorem nextRoleOf_mem (r : Str) : nextRoleOf r ∈
    [s2l "next appropriate role", s2l "@requirements-collector",
     s2l "@mvp-specialist", s2l "@architect", s2l "@planner",
     s2l "@pseudo-coder", s2l "@tdd-evidence-specialist", s2l "@coder",
     s2l "@documentation-writer", s2l "@git-mate", s2l "deployment"] := by
  rcases roles_key_cases r with h | h | h | h | h | h | h | h | h | h | h
  · simp [nextRoleOf, h]
  all_goals subst h
  all_goals simp [nextRoleOf, roles]
  all_goals decide

/-- The interaction-pattern lookup always contains its own guard heading. -/
theorem interactionPattern_has_guard (r : Str) :
    hasSub (interactionPattern r) hInteractive = true := by
  unfold interactionPattern
  split
  · decide
  split
  · decide
  split
  · decide
  · decide

theorem sopTemplate_has_guard (r : Str) :
    hasSub (sopTemplate r) hSOP = true := by
  unfold sopTemplate
  exact hasSub_append_of_left (by decide)

theorem exampleUsage_has_guard (r : Str) :
    hasSub (exampleUsage r) hExample = true := by
  unfold exampleUsage
  simp only [List.append_assoc]
  exact hasSub_append_of_left (by decide)

theorem exampleUsage_default {r : Str} (h : roles r = none) :
    exampleUsage r = exDefaultPre ++ (r ++ exDefaultPost) := by
  simp [exampleUsage, exNameA, exDefA, exNameB, exNameC, exDefB, exNextB, h,
    exDefaultPre, exDefaultPost, List.append_assoc]

theorem notSub_pattern_eight (r : Str) :
    hasSub (interactionPattern r) hEight = false := by
  unfold interactionPattern
  split
  · decide
  split
  · decide
  split
  · decide
  · decide

theorem notSub_pattern_summary (r : Str) :
    hasSub (interactionPattern r) hSummary = false := by
  unfold interactionPattern
  split
  · decide
  split
  · decide
  split
  · decide
  · decide

theorem notSub_pattern_workflow (r : Str) :
    hasSub (interactionPattern r) hWorkflow = false := by
  unfold interactionPattern
  split
  · decide
  split
  · decide
  split
  · decide
  · decide

theorem notSub_pattern_instrumentation (r : Str) :
    hasSub (interactionPattern r) hInstrumentation = false := by
  unfold interactionPattern
  split
  · decide
  split
  · decide
  split
  · decide
  · decide

theorem notSub_sop_of {t : Str} (h1 : hasSub sopPre t = false)
    (h2 : ([s2l "next appropriate role", s2l "@requirements-collector",
      s2l "@mvp-specialist", s2l "@architect", s2l "@planner",
      s2l "@pseudo-coder", s2l "@tdd-evidence-specialist", s2l "@coder",
      s2l "@documentation-writer", s2l "@git-mate", s2l "deployment"]).all
        (fun w => !hasSub w t) = true)
    (h3 : (splitsOf t).all (fun p => !isSuf p.1 sopPre) = true) (r : Str) :
    hasSub (sopTemplate r) t = false :=
  notSub_append_suffixB h1 (notSub_of_mem_all (nextRoleOf_mem r) h2) h3

theorem notSub_sop_eight (r : Str) : hasSub (sopTemplate r) hEight = false :=
  notSub_sop_of (by decide) (by decide) (by decide) r

theorem notSub_sop_summary (r : Str) : hasSub (sopTemplate r) hSummary = false :=
  notSub_sop_of (by decide) (by decide) (by decide) r

theorem notSub_sop_workflow (r : Str) : hasSub (sopTemplate r) hWorkflow = false :=
  notSub_sop_of (by decide) (by decide) (by decide) r

theorem notSub_sop_instrumentation (r : Str) :
    hasSub (sopTemplate r) hInstrumentation = false :=
  notSub_sop_of (by decide) (by decide) (by decide) r

theorem notSub_example_of {d : Char} {t' : Str} (r : Str)
    (hr : hasSub r (d :: t') = false)
    (hpre : hasSub exDefaultPre (d :: t') = false)
    (hpost : hasSub exDefaultPost (d :: t') = false)
    (hL : (splitsOf (d :: t')).all (fun p => !isSuf p.1 exDefaultPre) = true)
    (hnl : '\n' ∉ t')
    (hk : ([exampleUsage (s2l "project-initiator"),
      exampleUsage (s2l "requirements-collector"),
      exampleUsage (s2l "mvp-specialist"), exampleUsage (s2l "architect"),
      exampleUsage (s2l "planner"), exampleUsage (s2l "pseudo-coder"),
      exampleUsage (s2l "tdd-evidence-specialist"), exampleUsage (s2l "coder"),
      exampleUsage (s2l "documentation-writer"),
      exampleUsage (s2l "git-mate")]).all (fun w => !hasSub w (d :: t')) = true) :
    hasSub (exampleUsage r) (d :: t') = false := by
  rcases roles_key_cases r with h | h | h | h | h | h | h | h | h | h | h
  · rw [exampleUsage_default h]
    refine notSub_append_suffixB hpre ?_ hL
    refine notSub_append_headB hr hpost ?_
    intro c hc
    have h2 : exDefaultPost.head? = some '\n' := by decide
    rw [h2] at hc
    injection hc with h3
    rw [← h3]
    simpa using hnl
  all_goals subst h
  all_goals exact notSub_of_mem_all (by simp) hk

theorem notSub_example_eight (r : Str) (hr : hasSub r hEight = false) :
    hasSub (exampleUsage r) hEight = false :=
  notSub_example_of r hr (by decide) (by decide) (by decide) (by decide) (by decide)

theorem notSub_example_summary (r : Str) (hr : hasSub r hSummary = false) :
    hasSub (exampleUsage r) hSummary = false :=
  notSub_example_of r hr (by decide) (by decide) (by decide) (by decide) (by decide)

theorem notSub_example_workflow (r : Str) (hr : hasSub r hWorkflow = false) :
    hasSub (exampleUsage r) hWorkflow = false :=
  notSub_example_of r hr (by decide) (by decide) (by decide) (by decide) (by decide)

theorem notSub_example_instrumentation (r : Str)
    (hr : hasSub r hInstrumentation = false) :
    hasSub (exampleUsage r) hInstrumentation = false :=
  notSub_example_of r hr (by decide) (by decide) (by decide) (by decide) (by decide)

/-! ### Behaviour of the five blocks under composition -/

theorem hasSub_nil_pat (b : Str) : hasSub b [] = true := by
  cases b <;> simp [hasSub, isPre]

theorem notSub_append_nl' {b T t : Str}
    (hh : t.head? ≠ some '\n') (hnl : '\n' ∉ t.drop 1)
    (hb : hasSub b t = false) (hT : hasSub T t = false) :
    hasSub ((b ++ s2l "\n") ++ T) t = false := by
  cases t with
  | nil =>
    rw [hasSub_nil_pat] at hb
    exact absurd hb (by simp)
  | cons d t' =>
    have hd : (d == '\n') = false := by
      simp only [List.head?_cons, ne_eq, Option.some.injEq] at hh
      simpa using hh
    exact notSub_append_nl hd hb hT (by simpa using hnl)

theorem stepOne_notSub {r b t : Str} (hh : t.head? ≠ some '\n')
    (hnl : '\n' ∉ t.drop 1) (hb : hasSub b t = false)
    (hT : hasSub (interactionPattern r) t = false) :
    hasSub (stepOne r b) t = false := by
  rcases stepOne_shape r b with hs | hs <;> rw [hs]
  · exact hb
  · exact notSub_append_nl' hh hnl hb hT

theorem stepTwo_notSub {r b t : Str} (hh : t.head? ≠ some '\n')
    (hnl : '\n' ∉ t.drop 1) (hb : hasSub b t = false)
    (hT : hasSub (sopTemplate r) t = false) :
    hasSub (stepTwo r b) t = false := by
  rcases stepTwo_shape r b with hs | hs <;> rw [hs]
  · exact hb
  · exact notSub_append_nl' hh hnl hb hT

theorem stepThree_notSub {r b t : Str} (hh : t.head? ≠ some '\n')
    (hnl : '\n' ∉ t.drop 1) (hb : hasSub b t = false)
    (hT : hasSub (exampleUsage r) t = false) :
    hasSub (stepThree r b) t = false := by
  rcases stepThree_shape r b with hs | hs <;> rw [hs]
  · exact hb
  · exact notSub_append_nl' hh hnl hb hT

theorem stepOne_preserves {r b t : Str} (h : hasSub b t = true) :
    hasSub (stepOne r b) t = true := by
  rcases stepOne_shape r b with hs | hs <;> rw [hs]
  · exact h
  · exact hasSub_append_of_left (hasSub_append_of_left h)

theorem stepTwo_preserves {r b t : Str} (h : hasSub b t = true) :
    hasSub (stepTwo r b) t = true := by
  rcases stepTwo_shape r b with hs | hs <;> rw [hs]
  · exact h
  · exact hasSub_append_of_left (hasSub_append_of_left h)

theorem stepThree_preserves {r b t : Str} (h : hasSub b t = true) :
    hasSub (stepThree r b) t = true := by
  rcases stepThree_shape r b with hs | hs <;> rw [hs]
  · exact h
  · exact hasSub_append_of_left (hasSub_append_of_left h)

theorem hasSub_confirmInsert_preserve {t b : Str} (h1 : '1' ∉ t.drop 1)
    (h : hasSub b t = true) :
    hasSub (replaceAll h13Workflow confirmationRepl b) t = true := by
  rw [hasSub_iff] at h ⊢
  have hrepl : confirmationRepl = (confirmationText ++ s2l "\n") ++ h13Workflow := by
    simp [confirmationRepl, List.append_assoc]
  rw [replaceAll, hrepl]
  have hp : h13Workflow.head? = some '1' := rfl
  exact infix_replaceAllF hp h1 _ _ h

theorem hasSub_confirmInsert_notSub {t b : Str} (htne : t ≠ [])
    (h1 : '1' ∉ t.drop 1) (hn : '\n' ∉ t.drop 1)
    (htr : hasSub confirmationRepl t = false)
    (hLS : (splitsOf t).all (fun pr => !isSuf pr.1 confirmationRepl) = true)
    (hb : hasSub b t = false) :
    hasSub (replaceAll h13Workflow confirmationRepl b) t = false := by
  rw [hasSub_false_iff] at hb ⊢
  rw [replaceAll]
  have hp : h13Workflow.head? = some '1' := rfl
  have hrr : confirmationRepl.head? = some '\n' := rfl
  exact not_infix_replaceAllF hp hrr htne h1 hn
    (hasSub_false_iff.mp htr) hLS _ _ hb

theorem confirmInsert_exists {b : Str} (h : hasSub b h13Workflow = true) :
    ∃ a c, replaceAll h13Workflow confirmationRepl b = a ++ confirmationRepl ++ c :=
  replaceAllF_sub_repl (by decide) b.length b h (le_refl _)

theorem reSub8_exists {b : Str} (h : hasSub b hEight = true) :
    ∃ a c, reSub8 instrumentationRepl b = a ++ instrumentationRepl ++ c :=
  reSub8F_sub_repl b.length b h (le_refl _)

theorem stepFour_preserves {b t : Str} (h1 : '1' ∉ t.drop 1)
    (h : hasSub b t = true) : hasSub (stepFour b) t = true := by
  rcases stepFour_shape b with hs | hs | hs <;> rw [hs]
  · exact h
  · exact hasSub_confirmInsert_preserve h1 h
  · exact hasSub_append_of_left (hasSub_append_of_left h)

/-- The summary-and-confirmation block is idempotent on its own: a second
application of the fourth block never changes the content again. -/
theorem stepFour_idem (b : Str) : stepFour (stepFour b) = stepFour b := by
  by_cases hS : hasSub b hSummary = true
  · rw [stepFour_eq_skip hS, stepFour_eq_skip hS]
  · have hS' : hasSub b hSummary = false := by simpa using hS
    by_cases hW : hasSub b hWorkflow = true
    · by_cases h13 : hasSub b h13Workflow = true
      · rw [stepFour_eq_insert hS' hW]
        obtain ⟨a, c, he⟩ := confirmInsert_exists h13
        have hSC2 : hasSub (replaceAll h13Workflow confirmationRepl b) hSummary = true := by
          rw [he]
          exact hasSub_append_of_left (hasSub_append_of_right (by decide))
        exact stepFour_eq_skip hSC2
      · have h13' : hasSub b h13Workflow = false := by simpa using h13
        have hrep : replaceAll h13Workflow confirmationRepl b = b :=
          replaceAll_of_not_sub h13'
        rw [stepFour_eq_insert hS' hW, hrep, stepFour_eq_insert hS' hW, hrep]
    · have hW' : hasSub b hWorkflow = false := by simpa using hW
      rw [stepFour_eq_append hS' hW']
      have hSC2 : hasSub ((b ++ s2l "\n") ++ confirmationText) hSummary = true :=
        hasSub_append_of_right (by decide)
      exact stepFour_eq_skip hSC2

theorem stepOne_has_guard (r b : Str) :
    hasSub (stepOne r b) hInteractive = true := by
  by_cases hg : hasSub b hInteractive = true
  · rw [stepOne_eq_pos hg]; exact hg
  · rw [stepOne_eq_neg (by simpa using hg)]
    exact hasSub_append_of_right (interactionPattern_has_guard r)

theorem stepTwo_has_guard (r b : Str) :
    hasSub (stepTwo r b) hSOP = true := by
  by_cases hg : hasSub b hSOP = true
  · rw [stepTwo_eq_pos hg]; exact hg
  · rw [stepTwo_eq_neg (by simpa using hg)]
    exact hasSub_append_of_right (sopTemplate_has_guard r)

theorem stepThree_has_guard (r b : Str) :
    hasSub (stepThree r b) hExample = true := by
  by_cases hg : hasSub b hExample = true
  · rw [stepThree_eq_pos hg]; exact hg
  · rw [stepThree_eq_neg (by simpa using hg)]
    exact hasSub_append_of_right (exampleUsage_has_guard r)

theorem stepFour_notSub_eight {b : Str} (hb : hasSub b hEight = false) :
    hasSub (stepFour b) hEight = false := by
  rcases stepFour_shape b with hs | hs | hs <;> rw [hs]
  · exact hb
  · exact hasSub_confirmInsert_notSub (by decide) (by decide) (by decide)
      (by decide) (by decide) hb
  · exact notSub_append_nl' (by decide) (by decide) hb (by decide)

theorem stepFour_notSub_instrumentation {b : Str}
    (hb : hasSub b hInstrumentation = false) :
    hasSub (stepFour b) hInstrumentation = false := by
  rcases stepFour_shape b with hs | hs | hs <;> rw [hs]
  · exact hb
  · exact hasSub_confirmInsert_notSub (by decide) (by decide) (by decide)
      (by decide) (by decide) hb
  · exact notSub_append_nl' (by decide) (by decide) hb (by decide)

theorem x3_notSub_eight {r body : Str} (h8b : hasSub body hEight = false)
    (h8r : hasSub r hEight = false) :
    hasSub (stepThree r (stepTwo r (stepOne r body))) hEight = false := by
  refine stepThree_notSub (by decide) (by decide) ?_ (notSub_example_eight r h8r)
  refine stepTwo_notSub (by decide) (by decide) ?_ (notSub_sop_eight r)
  exact stepOne_notSub (by decide) (by decide) h8b (notSub_pattern_eight r)

theorem migrate_fixed_point {r y : Str}
    (g1 : hasSub y hInteractive = true) (g2 : hasSub y hSOP = true)
    (g3 : hasSub y hExample = true) (h4 : stepFour y = y)
    (h5 : stepFive y = y) :
    migrateBody r y = y := by
  unfold migrateBody
  rw [stepOne_eq_pos g1, stepTwo_eq_pos g2, stepThree_eq_pos g3, h4, h5]

/-- Claim C1 counterexample: `add_missing_elements` is not idempotent on every
body.  The instrumentation rewrite of the fifth block consumes the whole line
`8. ## Interactive Session Structure`, destroying the interaction-pattern
guard heading, so a second application appends the interaction pattern
again. -/
theorem c1_counterexample :
    migrateBody (s2l "coder")
        (migrateBody (s2l "coder")
          (s2l "8. ## Interactive Session Structure\n## Standard Operating Procedures\n## Example Usage\nSUMMARY & CONFIRMATION")) ≠
      migrateBody (s2l "coder")
        (s2l "8. ## Interactive Session Structure\n## Standard Operating Procedures\n## Example Usage\nSUMMARY & CONFIRMATION") := by
  decide

/-- Claim C1 (amended): `add_missing_elements` is idempotent on every body on
which the instrumentation rewrite does not fire — that is, every body that
already contains `"INSTRUMENTATION"`, or contains no `"8. "` (with the role
key also free of `"8. "`, as every key produced by the `### @[\w-]+` splitter
is). -/
theorem c1_amended_idempotent (r body : Str)
    (h : hasSub body hInstrumentation = true ∨
      (hasSub body hEight = false ∧ hasSub r hEight = false)) :
    migrateBody r (migrateBody r body) = migrateBody r body := by
  have hskip : hasSub (stepFour (stepThree r (stepTwo r (stepOne r body))))
      hInstrumentation = true ∨
      hasSub (stepFour (stepThree r (stepTwo r (stepOne r body)))) hEight = false := by
    rcases h with hI | ⟨h8b, h8r⟩
    · exact Or.inl (stepFour_preserves (by decide)
        (stepThree_preserves (stepTwo_preserves (stepOne_preserves hI))))
    · exact Or.inr (stepFour_notSub_eight (x3_notSub_eight h8b h8r))
  have hy : migrateBody r body =
      stepFour (stepThree r (stepTwo r (stepOne r body))) :=
    stepFive_eq_skip hskip
  rw [hy]
  refine migrate_fixed_point ?_ ?_ ?_ ?_ ?_
  · exact stepFour_preserves (by decide)
      (stepThree_preserves (stepTwo_preserves (stepOne_has_guard r body)))
  · exact stepFour_preserves (by decide)
      (stepThree_preserves (stepTwo_has_guard r (stepOne r body)))
  · exact stepFour_preserves (by decide)
      (stepThree_has_guard r (stepTwo r (stepOne r body)))
  · exact stepFour_idem (stepThree r (stepTwo r (stepOne r body)))
  · exact stepFive_eq_skip hskip

theorem c1_witness :
    (hasSub (s2l "## Role body text") hEight = false ∧
      hasSub (s2l "coder") hEight = false) ∧
    migrateBody (s2l "coder") (migrateBody (s2l "coder") (s2l "## Role body text")) =
      migrateBody (s2l "coder") (s2l "## Role body text") :=
  ⟨⟨by decide, by decide⟩,
    c1_amended_idempotent (s2l "coder") (s2l "## Role body text")
      (Or.inr ⟨by decide, by decide⟩)⟩

/-- Claim C2 counterexample: a body that contains `"WORKFLOW EVALUATION"` but
not the exact numbered string `"13. WORKFLOW EVALUATION"` (and no
`"SUMMARY & CONFIRMATION"`) passes through `add_missing_elements` unchanged:
the summary-and-confirmation block is not placed before the marker, nor
anywhere else. -/
theorem c2_counterexample :
    migrateBody (s2l "coder")
        (s2l "## Interactive Session Structure\n## Standard Operating Procedures\n## Example Usage\nWORKFLOW EVALUATION") =
      s2l "## Interactive Session Structure\n## Standard Operating Procedures\n## Example Usage\nWORKFLOW EVALUATION" ∧
    hasSub (s2l "## Interactive Session Structure\n## Standard Operating Procedures\n## Example Usage\nWORKFLOW EVALUATION")
      hWorkflow = true ∧
    hasSub (s2l "## Interactive Session Structure\n## Standard Operating Procedures\n## Example Usage\nWORKFLOW EVALUATION")
      hSummary = false := by
  refine ⟨by decide, by decide, by decide⟩

/-- Claim C2 (amended): for a body without `"SUMMARY & CONFIRMATION"` (and
with the `"8. "` rewrite not firing, and a role key free of the involved
markers), the summary block is inserted immediately before the exact string
`"13. WORKFLOW EVALUATION"` when that exact string occurs — the insertion is
keyed on that numbered string, not on `"WORKFLOW EVALUATION"` alone — and
for a body containing no `"WORKFLOW EVALUATION"` the block is appended at
the very end of the enriched body. -/
theorem c2_amended_anchoring (r body : Str)
    (hSC : hasSub body hSummary = false)
    (h8b : hasSub body hEight = false)
    (h8r : hasSub r hEight = false)
    (hSCr : hasSub r hSummary = false)
    (hWEr : hasSub r hWorkflow = false) :
    (hasSub body h13Workflow = true →
      ∃ a c, migrateBody r body = a ++ confirmationRepl ++ c) ∧
    (hasSub body hWorkflow = false →
      migrateBody r body =
        ((stepThree r (stepTwo r (stepOne r body))) ++ s2l "\n") ++ confirmationText) := by
  have hSC3 : hasSub (stepThree r (stepTwo r (stepOne r body))) hSummary = false := by
    refine stepThree_notSub (by decide) (by decide) ?_ (notSub_example_summary r hSCr)
    refine stepTwo_notSub (by decide) (by decide) ?_ (notSub_sop_summary r)
    exact stepOne_notSub (by decide) (by decide) hSC (notSub_pattern_summary r)
  have h8_3 : hasSub (stepThree r (stepTwo r (stepOne r body))) hEight = false :=
    x3_notSub_eight h8b h8r
  have h8_4 : hasSub (stepFour (stepThree r (stepTwo r (stepOne r body))))
      hEight = false := stepFour_notSub_eight h8_3
  have hM : migrateBody r body =
      stepFour (stepThree r (stepTwo r (stepOne r body))) :=
    stepFive_eq_skip (Or.inr h8_4)
  constructor
  · intro h13
    have h13_3 : hasSub (stepThree r (stepTwo r (stepOne r body))) h13Workflow = true :=
      stepThree_preserves (stepTwo_preserves (stepOne_preserves h13))
    have hWE3 : hasSub (stepThree r (stepTwo r (stepOne r body))) hWorkflow = true :=
      hasSub_trans_of_sub (by decide) h13_3
    obtain ⟨a, c, he⟩ := confirmInsert_exists h13_3
    refine ⟨a, c, ?_⟩
    rw [hM, stepFour_eq_insert hSC3 hWE3, he]
  · intro hWEb
    have hWE3 : hasSub (stepThree r (stepTwo r (stepOne r body))) hWorkflow = false := by
      refine stepThree_notSub (by decide) (by decide) ?_ (notSub_example_workflow r hWEr)
      refine stepTwo_notSub (by decide) (by decide) ?_ (notSub_sop_workflow r)
      exact stepOne_notSub (by decide) (by decide) hWEb (notSub_pattern_workflow r)
    rw [hM, stepFour_eq_append hSC3 hWE3]

theorem c2_witness :
    (hasSub (s2l "13. WORKFLOW EVALUATION") hSummary = false ∧
      hasSub (s2l "13. WORKFLOW EVALUATION") hEight = false ∧
      hasSub (s2l "coder") hEight = false ∧
      hasSub (s2l "coder") hSummary = false ∧
      hasSub (s2l "coder") hWorkflow = false ∧
      hasSub (s2l "13. WORKFLOW EVALUATION") h13Workflow = true) ∧
    ∃ a c, migrateBody (s2l "coder") (s2l "13. WORKFLOW EVALUATION") =
      a ++ confirmationRepl ++ c :=
  ⟨⟨by decide, by decide, by decide, by decide, by decide, by decide⟩,
    (c2_amended_anchoring (s2l "coder") (s2l "13. WORKFLOW EVALUATION")
      (by decide) (by decide) (by decide) (by decide) (by decide)).1 (by decide)⟩

/-- Claim C3 counterexample: the instrumentation rewrite replaces every
match of `8\.\s+.*`, not only the first such line.  Here the later line
`8. b` is also rewritten away, while the claim requires all lines other than
the first match to be left unchanged. -/
theorem c3_counterexample :
    hasSub (s2l "## Interactive Session Structure\n## Standard Operating Procedures\n## Example Usage\nSUMMARY & CONFIRMATION\n8. a\n8. b")
      (s2l "8. b") = true ∧
    hasSub (s2l "## Interactive Session Structure\n## Standard Operating Procedures\n## Example Usage\nSUMMARY & CONFIRMATION\n8. a\n8. b")
      hEight = true ∧
    hasSub (s2l "## Interactive Session Structure\n## Standard Operating Procedures\n## Example Usage\nSUMMARY & CONFIRMATION\n8. a\n8. b")
      hInstrumentation = false ∧
    hasSub (migrateBody (s2l "coder")
        (s2l "## Interactive Session Structure\n## Standard Operating Procedures\n## Example Usage\nSUMMARY & CONFIRMATION\n8. a\n8. b"))
      (s2l "8. b") = false := by
  refine ⟨by decide, by decide, by decide, by decide⟩

/-- Claim C3 (amended): for a body containing `"8. "` and no
`"INSTRUMENTATION"` (role key also free of it), the final content is the
body after the first four blocks with every match of `8\.\s+.*` — a literal
`8.`, a maximal whitespace run (possibly spanning line breaks), then the
rest of the line — replaced by the instrumentation bullet followed by the
`9. ` placeholder; in particular the instrumentation bullet occurs in the
result. -/
theorem c3_amended_replaces_every_match (r body : Str)
    (h8 : hasSub body hEight = true)
    (hI : hasSub body hInstrumentation = false)
    (hIr : hasSub r hInstrumentation = false) :
    migrateBody r body =
      reSub8 instrumentationRepl
        (stepFour (stepThree r (stepTwo r (stepOne r body)))) ∧
    ∃ a c, migrateBody r body = a ++ instrumentationRepl ++ c := by
  have hI3 : hasSub (stepThree r (stepTwo r (stepOne r body)))
      hInstrumentation = false := by
    refine stepThree_notSub (by decide) (by decide) ?_
      (notSub_example_instrumentation r hIr)
    refine stepTwo_notSub (by decide) (by decide) ?_ (notSub_sop_instrumentation r)
    exact stepOne_notSub (by decide) (by decide) hI (notSub_pattern_instrumentation r)
  have hI4 : hasSub (stepFour (stepThree r (stepTwo r (stepOne r body))))
      hInstrumentation = false := stepFour_notSub_instrumentation hI3
  have h8_4 : hasSub (stepFour (stepThree r (stepTwo r (stepOne r body))))
      hEight = true :=
    stepFour_preserves (by decide)
      (stepThree_preserves (stepTwo_preserves (stepOne_preserves h8)))
  have hM : migrateBody r body =
      reSub8 instrumentationRepl
        (stepFour (stepThree r (stepTwo r (stepOne r body)))) :=
    stepFive_eq_sub hI4 h8_4
  refine ⟨hM, ?_⟩
  obtain ⟨a, c, he⟩ := reSub8_exists h8_4
  exact ⟨a, c, by rw [hM, he]⟩

theorem c3_witness :
    (hasSub (s2l "8. x") hEight = true ∧
      hasSub (s2l "8. x") hInstrumentation = false ∧
      hasSub (s2l "coder") hInstrumentation = false) ∧
    ∃ a c, migrateBody (s2l "coder") (s2l "8. x") =
      a ++ instrumentationRepl ++ c :=
  ⟨⟨by decide, by decide, by decide⟩,
    (c3_amended_replaces_every_match (s2l "coder") (s2l "8. x")
      (by decide) (by decide) (by decide)).2⟩
